import Mathlib

/-! A shallow embedding of the 6502 emulator core (`6502lib/src/public/main_6502.h`).

`Byte`, `Word` and `u32` values are natural numbers; every place where the C++
code truncates to the width of the destination is an explicit `%`.  A failed
`assert( Address < MAX_MEM )` is the result `none`.  The `while` loop of
`CPU::Execute` is driven by a fuel argument that bounds the number of loop
iterations, since the loop is not structurally terminating.
-/

namespace M6502

/-! ## Machine integers -/

/-- Number of values of a `Byte` (`unsigned char`). -/
def BYTE_MOD : Nat := 256

/-- Number of values of a `Word` (`unsigned short`). -/
def WORD_MOD : Nat := 65536

/-- Number of values of a `u32` (`unsigned int`). -/
def U32_MOD : Nat := 4294967296

/-- The `u32` subtraction `Cycles -= k` (wraps around below zero). -/
def subU32 (Cycles k : Nat) : Nat := (Cycles + (U32_MOD - k)) % U32_MOD

/-- The `Word` increment `PC++` / `SP++`. -/
def incWord (w : Nat) : Nat := (w + 1) % WORD_MOD

/-- The `Word` decrement `SP--`, and `PC - 1` converted back to a `Word`. -/
def decWord (w : Nat) : Nat := (w + (WORD_MOD - 1)) % WORD_MOD

/-! ## `struct Mem` -/

/-- The constant `Mem::MAX_MEM`. -/
def MAX_MEM : Nat := 1024 * 64

/-- The array `Byte Data[MAX_MEM]`, as a function of the index. -/
structure Mem where
  Data : Nat → Nat

/-- The loop of `Mem::Initialise`, run for `i = 0, ..., n - 1`. -/
def Mem.InitialiseLoop (m : Mem) : Nat → Mem
  | 0 => m
  | n + 1 =>
    let m1 := Mem.InitialiseLoop m n
    ⟨fun a => if a = n then 0 else m1.Data a⟩

/-- The method `Mem::Initialise`. -/
def Mem.Initialise (m : Mem) : Mem := Mem.InitialiseLoop m MAX_MEM

/-- Read through `Mem::operator[]`: `none` when the assertion fails. -/
def Mem.read (m : Mem) (Address : Nat) : Option Nat :=
  if Address < MAX_MEM then some (m.Data Address) else none

/-- Assignment through the reference returned by `Mem::operator[]`; the value
is converted to a `Byte`. -/
def Mem.write (m : Mem) (Address : Nat) (Value : Nat) : Option Mem :=
  if Address < MAX_MEM then
    some ⟨fun a => if a = Address then Value % BYTE_MOD else m.Data a⟩
  else none

/-- The method `Mem::WriteWord`; returns the memory and the cycle counter. -/
def Mem.WriteWord (m : Mem) (Value Address Cycles : Nat) : Option (Mem × Nat) :=
  if Address < MAX_MEM - 1 then
    let m1 : Mem := ⟨fun a => if a = Address then (Value &&& 0xFF) % BYTE_MOD else m.Data a⟩
    let m2 : Mem := ⟨fun a => if a = Address + 1 then (Value >>> 8) % BYTE_MOD else m1.Data a⟩
    some (m2, subU32 Cycles 2)
  else none

/-- The method `Mem::ReadWord`; returns the value and the cycle counter. -/
def Mem.ReadWord (m : Mem) (Address Cycles : Nat) : Option (Nat × Nat) :=
  if Address < MAX_MEM - 1 then
    some ((m.Data Address ||| (m.Data (Address + 1) <<< 8)) % WORD_MOD, subU32 Cycles 2)
  else none

/-! ## `struct CPU` -/

/-- Registers and status flags of `struct CPU`. -/
structure CPU where
  PC : Nat
  SP : Nat
  A : Nat
  X : Nat
  Y : Nat
  C : Nat
  Z : Nat
  I : Nat
  D : Nat
  B : Nat
  V : Nat
  N : Nat

/-- The method `CPU::Reset`. -/
def CPU.Reset (_cpu : CPU) (memory : Mem) : CPU × Mem :=
  ({ PC := 0xFFFC, SP := 0xFF, C := 0, Z := 0, I := 0, D := 0, B := 0, V := 0, N := 0,
     A := 0, X := 0, Y := 0 },
   memory.Initialise)

/-- The method `CPU::FetchByte`: the byte, the CPU and the cycle counter. -/
def CPU.FetchByte (cpu : CPU) (Cycles : Nat) (memory : Mem) : Option (Nat × CPU × Nat) := do
  let Data ← memory.read cpu.PC
  some (Data, { cpu with PC := incWord cpu.PC }, subU32 Cycles 1)

/-- The method `CPU::FetchWord`: the word, the CPU and the cycle counter. -/
def CPU.FetchWord (cpu : CPU) (Cycles : Nat) (memory : Mem) : Option (Nat × CPU × Nat) := do
  let Data ← memory.read cpu.PC
  let cpu1 := { cpu with PC := incWord cpu.PC }
  let hi ← memory.read cpu1.PC
  let Data := (Data ||| (hi <<< 8)) % WORD_MOD
  let cpu2 := { cpu1 with PC := incWord cpu1.PC }
  some (Data, cpu2, subU32 Cycles 2)

/-- The method `CPU::ReadByte`: the byte and the cycle counter.  The parameter
`Address` is a `Byte`, so the argument is converted to one. -/
def CPU.ReadByte (_cpu : CPU) (Cycles Address : Nat) (memory : Mem) : Option (Nat × Nat) := do
  let Address := Address % BYTE_MOD
  let Data ← memory.read Address
  some (Data, subU32 Cycles 1)

/-- The method `CPU::PushByteToStack`. -/
def CPU.PushByteToStack (cpu : CPU) (Cycles Value : Nat) (memory : Mem) :
    Option (CPU × Nat × Mem) := do
  let memory1 ← memory.write (0x0100 ||| cpu.SP) Value
  some ({ cpu with SP := decWord cpu.SP }, subU32 Cycles 1, memory1)

/-- The method `CPU::PushWordToStack`. -/
def CPU.PushWordToStack (cpu : CPU) (Cycles Value : Nat) (memory : Mem) :
    Option (CPU × Nat × Mem) := do
  let memory1 ← memory.write (0x0100 ||| cpu.SP) ((Value >>> 8) &&& 0xFF)
  let cpu1 := { cpu with SP := decWord cpu.SP }
  let memory2 ← memory1.write (0x0100 ||| cpu1.SP) (Value &&& 0xFF)
  let cpu2 := { cpu1 with SP := decWord cpu1.SP }
  some (cpu2, subU32 Cycles 2, memory2)

/-- The method `CPU::PopByteFromStack`: the byte, the CPU and the cycle counter. -/
def CPU.PopByteFromStack (cpu : CPU) (Cycles : Nat) (memory : Mem) :
    Option (Nat × CPU × Nat) := do
  let cpu1 := { cpu with SP := incWord cpu.SP }
  let Value ← memory.read (0x0100 ||| cpu1.SP)
  some (Value, cpu1, subU32 Cycles 1)

/-- The method `CPU::PopWordFromStack`: the word, the CPU and the cycle counter. -/
def CPU.PopWordFromStack (cpu : CPU) (Cycles : Nat) (memory : Mem) :
    Option (Nat × CPU × Nat) := do
  let cpu1 := { cpu with SP := incWord cpu.SP }
  let Value ← memory.read (0x0100 ||| cpu1.SP)
  let cpu2 := { cpu1 with SP := incWord cpu1.SP }
  let hi ← memory.read (0x0100 ||| cpu2.SP)
  let Value := (Value ||| (hi <<< 8)) % WORD_MOD
  some (Value, cpu2, subU32 Cycles 2)

/-- Opcode `CPU::INS_LDA_IM`. -/
def INS_LDA_IM : Nat := 0xA9
/-- Opcode `CPU::INS_LDA_ZP`. -/
def INS_LDA_ZP : Nat := 0xA5
/-- Opcode `CPU::INS_LDA_ZPX`. -/
def INS_LDA_ZPX : Nat := 0xB5
/-- Opcode `CPU::INS_JSR`. -/
def INS_JSR : Nat := 0x20
/-- Opcode `CPU::INS_RTS`. -/
def INS_RTS : Nat := 0x60
/-- Opcode `CPU::INS_BRK`. -/
def INS_BRK : Nat := 0x00

/-- The method `CPU::LDASetStatus`. -/
def CPU.LDASetStatus (cpu : CPU) : CPU :=
  { cpu with
    Z := if cpu.A = 0 then 1 else 0
    N := if (cpu.A &&& 0b10000000) > 0 then 1 else 0 }

/-- How one pass through the body of the `while` loop of `CPU::Execute` ends:
at a `break` of the `switch` (back to the loop test), at the `return` of the
`INS_BRK` case, or at the `return` of the `default` case. -/
inductive Flow where
  | loop
  | brk
  | unhandled
  deriving DecidableEq, Repr

/-- The body of the `while` loop of `CPU::Execute`: one opcode fetch and the
`switch` on it. -/
def CPU.ExecuteBody (cpu : CPU) (Cycles : Nat) (memory : Mem) :
    Option (Flow × CPU × Nat × Mem) := do
  let (Ins, cpu, Cycles) ← cpu.FetchByte Cycles memory
  if Ins = INS_LDA_IM then
    let (Value, cpu, Cycles) ← cpu.FetchByte Cycles memory
    let cpu := { cpu with A := Value }
    some (Flow.loop, cpu.LDASetStatus, Cycles, memory)
  else if Ins = INS_LDA_ZP then
    let (ZeroPageAddr, cpu, Cycles) ← cpu.FetchByte Cycles memory
    let (Value, Cycles) ← cpu.ReadByte Cycles ZeroPageAddr memory
    let cpu := { cpu with A := Value }
    some (Flow.loop, cpu.LDASetStatus, Cycles, memory)
  else if Ins = INS_LDA_ZPX then
    let (ZeroPageAddr, cpu, Cycles) ← cpu.FetchByte Cycles memory
    let ZeroPageAddr := (ZeroPageAddr + cpu.X) % BYTE_MOD
    let Cycles := subU32 Cycles 1
    let (Value, Cycles) ← cpu.ReadByte Cycles ZeroPageAddr memory
    let cpu := { cpu with A := Value }
    some (Flow.loop, cpu.LDASetStatus, Cycles, memory)
  else if Ins = INS_JSR then
    let (SubAddr, cpu, Cycles) ← cpu.FetchWord Cycles memory
    let (cpu, Cycles, memory) ← cpu.PushWordToStack Cycles (decWord cpu.PC) memory
    let cpu := { cpu with PC := SubAddr }
    let Cycles := subU32 Cycles 1
    some (Flow.loop, cpu, Cycles, memory)
  else if Ins = INS_RTS then
    let (ReturnAddr, cpu, Cycles) ← cpu.PopWordFromStack Cycles memory
    let cpu := { cpu with PC := (ReturnAddr + 1) % WORD_MOD }
    let Cycles := subU32 Cycles 1
    some (Flow.loop, cpu, Cycles, memory)
  else if Ins = INS_BRK then
    some (Flow.brk, cpu, Cycles, memory)
  else
    some (Flow.unhandled, cpu, Cycles, memory)

/-- Why a call of `CPU::Execute` came back: the loop test `Cycles > 0` failed,
the `INS_BRK` case returned, or the `default` case returned. -/
inductive Halt where
  | budget
  | brk
  | unhandled
  deriving DecidableEq, Repr

/-- Result of running `CPU::Execute`. -/
inductive Run where
  | done (why : Halt) (cpu : CPU) (Cycles : Nat) (memory : Mem)
  | assertFailed
  | outOfFuel

/-- The method `CPU::Execute`; `fuel` bounds the number of loop iterations. -/
def CPU.Execute : (fuel : Nat) → CPU → (Cycles : Nat) → Mem → Run
  | fuel, cpu, Cycles, memory =>
    if Cycles > 0 then
      match fuel with
      | 0 => Run.outOfFuel
      | fuel + 1 =>
        match cpu.ExecuteBody Cycles memory with
        | none => Run.assertFailed
        | some (Flow.loop, cpu1, Cycles1, memory1) => CPU.Execute fuel cpu1 Cycles1 memory1
        | some (Flow.brk, cpu1, Cycles1, memory1) => Run.done Halt.brk cpu1 Cycles1 memory1
        | some (Flow.unhandled, cpu1, Cycles1, memory1) =>
          Run.done Halt.unhandled cpu1 Cycles1 memory1
    else Run.done Halt.budget cpu Cycles memory

/-- The CPU, counter and memory of a running `CPU::Execute` after `n` passes
through its loop that each came back to the loop test; `none` when the run has
ended (or an assertion failed) before that. -/
def CPU.ExecutePasses : (n : Nat) → CPU → (Cycles : Nat) → Mem → Option (CPU × Nat × Mem)
  | 0, cpu, Cycles, memory => some (cpu, Cycles, memory)
  | n + 1, cpu, Cycles, memory =>
    if Cycles > 0 then
      match cpu.ExecuteBody Cycles memory with
      | some (Flow.loop, cpu1, Cycles1, memory1) => CPU.ExecutePasses n cpu1 Cycles1 memory1
      | _ => none
    else none

/-- The `pushWord` of the specification: two successive single-byte pushes,
the high byte `Value div 256` first, then the low byte `Value mod 256`. -/
def CPU.pushWord_spec (cpu : CPU) (Cycles Value : Nat) (memory : Mem) :
    Option (CPU × Nat × Mem) := do
  let (cpu1, Cycles1, memory1) ← cpu.PushByteToStack Cycles (Value / 256) memory
  cpu1.PushByteToStack Cycles1 (Value % 256) memory1

/-! ## Well-formed values -/

/-- Every cell of the memory holds a `Byte`. -/
def Mem.WF (m : Mem) : Prop := ∀ a, m.Data a < BYTE_MOD

/-- Every field of the CPU is in the range of its C++ type: `PC` and `SP` are
`Word`s, `A`, `X`, `Y` are `Byte`s and the flags are one-bit fields. -/
def CPU.WF (cpu : CPU) : Prop :=
  cpu.PC < WORD_MOD ∧ cpu.SP < WORD_MOD ∧
  cpu.A < BYTE_MOD ∧ cpu.X < BYTE_MOD ∧ cpu.Y < BYTE_MOD ∧
  cpu.C < 2 ∧ cpu.Z < 2 ∧ cpu.I < 2 ∧ cpu.D < 2 ∧ cpu.B < 2 ∧ cpu.V < 2 ∧ cpu.N < 2

instance (cpu : CPU) : Decidable cpu.WF := by
  unfold CPU.WF; infer_instance

/-! ## Concrete machines of the test suite -/

/-- The CPU as `CPU::Reset` leaves it (the fixture's `SetUp`). -/
def resetCPU : CPU := (CPU.Reset ⟨0, 0, 0, 0, 0, 0, 0, 0, 0, 0, 0, 0⟩ ⟨fun _ => 0⟩).1

/-- Memory of `LDAImmediateCanLoadValueIntoARegister` after `Reset` and the
two stores of the test. -/
def memLDAImmediate : Mem :=
  ⟨fun a => if a = 0xFFFC then 0xA9 else if a = 0xFFFD then 0x84 else 0⟩

/-- Memory of `JSRCanJumpToSubroutineAndPushReturnAddressToStack` after `Reset`
and the stores of the test. -/
def memJSR : Mem :=
  ⟨fun a => if a = 0xFFFC then 0x20 else if a = 0xFFFD then 0x42 else if a = 0xFFFE then 0x42
    else if a = 0x4242 then 0xA9 else if a = 0x4243 then 0x84 else 0⟩

/-- Memory of `RTSCanReturnFromSubroutine` after `Reset` and the stores of the
test (the store of `INS_BRK` at `0xFFFF` writes a zero). -/
def memRTS : Mem :=
  ⟨fun a => if a = 0xFFFC then 0x20 else if a = 0xFFFD then 0x42 else if a = 0xFFFE then 0x42
    else if a = 0xFFFF then 0x00 else if a = 0x4242 then 0x60 else 0⟩

/-- The CPU of `StackOperationsWorkCorrectly` after its first byte push. -/
def cpuAfterBytePush : CPU := { resetCPU with SP := 0xFE }

/-- Memory of `StackOperationsWorkCorrectly` after its first byte push. -/
def memAfterBytePush : Mem := ⟨fun a => if a = 0x01FF then 0x42 else 0⟩

/-- Memory of `LDAZeroPageCanLoadValueIntoARegister` after `Reset` and the
stores of the test. -/
def memLDAZeroPage : Mem :=
  ⟨fun a => if a = 0xFFFC then 0xA5 else if a = 0xFFFD then 0x42 else if a = 0x0042 then 0x37
    else 0⟩

/-- The CPU of `LDAZeroPageXCanLoadValueIntoARegister`: `X = 5` after `Reset`. -/
def cpuX5 : CPU := { resetCPU with X := 5 }

/-- Memory of `LDAZeroPageXCanLoadValueIntoARegister` after `Reset` and the
stores of the test. -/
def memLDAZeroPageX : Mem :=
  ⟨fun a => if a = 0xFFFC then 0xB5 else if a = 0xFFFD then 0x42 else if a = 0x0047 then 0x37
    else 0⟩

/-- A CPU with `X = 2` after `Reset`, for an indexed load that wraps. -/
def cpuX2 : CPU := { resetCPU with X := 2 }

/-- A memory with `LDA $FF,X` at the reset vector, `0x37` at `0x0001` and
`0x99` at `0x0101`. -/
def memLDAZeroPageXWrap : Mem :=
  ⟨fun a => if a = 0xFFFC then 0xB5 else if a = 0xFFFD then 0xFF else if a = 0x0001 then 0x37
    else if a = 0x0101 then 0x99 else 0⟩

/-- The CPU of `RTSCanReturnFromSubroutine` after its `Execute( 6, mem )`. -/
def cpuAtSubroutine : CPU := { resetCPU with PC := 0x4242, SP := 0xFD }

/-- Memory of `RTSCanReturnFromSubroutine` after its `Execute( 6, mem )`: the
`JSR` has pushed `0xFFFE`. -/
def memAtSubroutine : Mem :=
  ⟨fun a => if a = 0x01FE then 0xFE else if a = 0x01FF then 0xFF else memRTS.Data a⟩

/-- The CPU of `RTSCanReturnFromSubroutine` once the `RTS` has run. -/
def cpuReturned : CPU := { resetCPU with PC := 0xFFFF, SP := 0xFF }

/-- The CPU of `RTSCanReturnFromSubroutine` once the `BRK` at `0xFFFF` has been
fetched. -/
def cpuPastBRK : CPU := { resetCPU with PC := 0x0000, SP := 0xFF }

/-- A memory, zero as after `Reset`, with the byte `0xEA` (none of the handled
opcodes) at the reset vector. -/
def memUnknownOpcode : Mem := ⟨fun a => if a = 0xFFFC then 0xEA else 0⟩

/-- A memory whose 65536 bytes are all `0xA9` (`INS_LDA_IM`). -/
def memAllLDA : Mem := ⟨fun _ => 0xA9⟩

/-- The memory as `Reset` leaves it: every byte zero. -/
def memZero : Mem := ⟨fun _ => 0⟩

/-- A memory, zero as after `Reset`, with an `RTS` at the reset vector. -/
def memRTSFirst : Mem := ⟨fun a => if a = 0xFFFC then 0x60 else 0⟩

/-- The harness calling `PushByteToStack( cycles, 0x42, mem )` `n` times in a
row. -/
def pushBytes : Nat → CPU → Nat → Mem → Option (CPU × Nat × Mem)
  | 0, cpu, Cycles, memory => some (cpu, Cycles, memory)
  | n + 1, cpu, Cycles, memory => do
    let (cpu1, Cycles1, memory1) ← cpu.PushByteToStack Cycles 0x42 memory
    pushBytes n cpu1 Cycles1 memory1

/-- A CPU whose stack pointer has come down to `0x00` (as after 255 byte pushes
from the reset state). -/
def cpuStackBottom : CPU := { resetCPU with SP := 0x00 }

/-! ## Arithmetic of bytes and words -/

set_option maxRecDepth 100000 in
theorem and_bit7_pos_iff (v : Nat) (h : v < 256) : (0 < v &&& 128) ↔ 128 ≤ v := by
  have key : ∀ v < 256, (0 < v &&& 128) ↔ 128 ≤ v := by decide
  exact key v h

theorem or_shiftLeft8 (lo hi : Nat) (h : lo < 256) : lo ||| (hi <<< 8) = lo + 256 * hi := by
  have key := Nat.mul_add_lt_is_or (i := 8) (b := lo) (by simpa using h) hi
  rw [Nat.or_comm, Nat.shiftLeft_eq, Nat.mul_comm hi]
  norm_num at key ⊢
  omega

theorem stackAddr_mod_two (s : Nat) : (0x0100 ||| s) % 2 = s % 2 := by
  have h1 := Nat.or_mod_two_eq_one (a := 0x100) (b := s)
  have h2 : (0x100 : Nat) % 2 = 0 := by norm_num
  rw [h2] at h1
  have h3 := Nat.mod_two_eq_zero_or_one (0x100 ||| s)
  have h4 := Nat.mod_two_eq_zero_or_one s
  omega

theorem stackAddr_lt (s : Nat) (h : s < 65536) : 0x0100 ||| s < 65536 :=
  Nat.or_lt_two_pow (n := 16) (by norm_num) (by simpa using h)

theorem stackAddr_of_lt (s : Nat) (h : s < 256) : 0x0100 ||| s = 256 + s := by
  have key := Nat.mul_add_lt_is_or (i := 8) (b := s) (by simpa using h) 1
  norm_num at key
  omega

theorem shiftRight8_and (w : Nat) : (w >>> 8) &&& 0xFF = w / 256 % 256 := by
  have key := Nat.and_pow_two_sub_one_eq_mod (w >>> 8) 8
  norm_num at key
  rw [key, Nat.shiftRight_eq_div_pow]

theorem and_0xFF (w : Nat) : w &&& 0xFF = w % 256 := by
  have key := Nat.and_pow_two_sub_one_eq_mod w 8
  norm_num at key
  exact key

/-! ## The helpers of `CPU`, on well-formed states -/

theorem read_of_lt (m : Mem) (a : Nat) (h : a < 65536) : m.read a = some (m.Data a) := by
  simp [Mem.read, MAX_MEM, h]

theorem incWord_lt (w : Nat) : incWord w < 65536 := by
  unfold incWord WORD_MOD; omega

theorem decWord_lt (w : Nat) : decWord w < 65536 := by
  unfold decWord WORD_MOD; omega

theorem FetchByte_eq (cpu : CPU) (Cycles : Nat) (memory : Mem) (h : cpu.PC < 65536) :
    cpu.FetchByte Cycles memory
      = some (memory.Data cpu.PC, { cpu with PC := incWord cpu.PC }, subU32 Cycles 1) := by
  simp [CPU.FetchByte, read_of_lt _ _ h]

theorem ReadByte_eq (cpu : CPU) (Cycles Address : Nat) (memory : Mem) :
    cpu.ReadByte Cycles Address memory = some (memory.Data (Address % 256), subU32 Cycles 1) := by
  have h : Address % 256 < 65536 := by omega
  simp [CPU.ReadByte, BYTE_MOD, read_of_lt _ _ h]

/-! ## The loop of `CPU::Execute` -/

theorem Execute_zero (fuel : Nat) (cpu : CPU) (memory : Mem) :
    cpu.Execute fuel 0 memory = Run.done Halt.budget cpu 0 memory := by
  unfold CPU.Execute; simp

theorem Execute_loop (fuel : Nat) (cpu cpu1 : CPU) (Cycles Cycles1 : Nat) (memory memory1 : Mem)
    (hc : 0 < Cycles)
    (hb : cpu.ExecuteBody Cycles memory = some (Flow.loop, cpu1, Cycles1, memory1)) :
    cpu.Execute (fuel + 1) Cycles memory = cpu1.Execute fuel Cycles1 memory1 := by
  rw [CPU.Execute]; simp [hc, hb]

theorem ExecuteBody_LDA_IM (cpu : CPU) (Cycles : Nat) (memory : Mem) (h : cpu.PC < 65536)
    (hop : memory.Data cpu.PC = 0xA9) :
    cpu.ExecuteBody Cycles memory
      = some (Flow.loop,
          CPU.LDASetStatus { cpu with PC := incWord (incWord cpu.PC),
                                      A := memory.Data (incWord cpu.PC) },
          subU32 (subU32 Cycles 1) 1, memory) := by
  simp [CPU.ExecuteBody, FetchByte_eq cpu _ _ h,
    FetchByte_eq { cpu with PC := incWord cpu.PC } _ _ (incWord_lt cpu.PC), hop, INS_LDA_IM]

/-- C1: with `0xA9` at `PC` and the byte `v` after it, `Execute` with budget 2
comes back at the loop test with `A = v`, `Z = 1` iff `v = 0`, `N = 1` iff
`v ≥ 0x80`, and `PC` advanced by 2 modulo 65536. -/
theorem C1_lda_immediate (cpu : CPU) (memory : Mem) (v fuel : Nat)
    (hcpu : cpu.WF) (hmem : memory.WF)
    (hop : memory.Data cpu.PC = 0xA9) (hv : memory.Data ((cpu.PC + 1) % 65536) = v) :
    ∃ cpu1, cpu.Execute (fuel + 1) 2 memory = Run.done Halt.budget cpu1 0 memory ∧
      cpu1.A = v ∧ (cpu1.Z = 1 ↔ v = 0) ∧ (cpu1.N = 1 ↔ 128 ≤ v) ∧
      cpu1.PC = (cpu.PC + 2) % 65536 := by
  have hpc : cpu.PC < 65536 := hcpu.1
  have hv256 : v < 256 := hv ▸ hmem _
  refine ⟨CPU.LDASetStatus { cpu with PC := incWord (incWord cpu.PC),
                                       A := memory.Data (incWord cpu.PC) }, ?_, ?_, ?_, ?_, ?_⟩
  · rw [Execute_loop fuel _ _ _ _ _ _ (by norm_num) (ExecuteBody_LDA_IM cpu 2 memory hpc hop)]
    have hc : subU32 (subU32 2 1) 1 = 0 := by decide
    rw [hc, Execute_zero]
  · simpa [CPU.LDASetStatus, incWord, WORD_MOD] using hv
  · have hA : memory.Data (incWord cpu.PC) = v := by simpa [incWord, WORD_MOD] using hv
    simp [CPU.LDASetStatus, hA]
  · have hA : memory.Data (incWord cpu.PC) = v := by simpa [incWord, WORD_MOD] using hv
    simp only [CPU.LDASetStatus, hA]
    have := and_bit7_pos_iff v hv256
    constructor
    · intro h
      by_contra hlt
      have : ¬ 0 < v &&& 128 := fun hp => hlt (this.mp hp)
      simp [this] at h
    · intro h
      simp [this.mpr h]
  · simp only [CPU.LDASetStatus, incWord, WORD_MOD]
    omega

/-- Witness of C1: the test `LDAImmediateCanLoadValueIntoARegister`. -/
theorem C1_lda_immediate_witness :
    ∃ cpu1, resetCPU.Execute 1 2 memLDAImmediate = Run.done Halt.budget cpu1 0 memLDAImmediate ∧
      cpu1.A = 0x84 ∧ (cpu1.Z = 1 ↔ 0x84 = 0) ∧ (cpu1.N = 1 ↔ 128 ≤ 0x84) ∧
      cpu1.PC = (resetCPU.PC + 2) % 65536 :=
  C1_lda_immediate resetCPU memLDAImmediate 0x84 0
    (by decide) (by intro a; simp only [memLDAImmediate, BYTE_MOD]; split_ifs <;> norm_num)
    (by decide) (by decide)


theorem write_of_lt (m : Mem) (a v : Nat) (h : a < 65536) :
    m.write a v = some ⟨fun x => if x = a then v % 256 else m.Data x⟩ := by
  simp [Mem.write, MAX_MEM, BYTE_MOD, h]

theorem FetchWord_eq (cpu : CPU) (Cycles : Nat) (memory : Mem) (h : cpu.PC < 65536) :
    cpu.FetchWord Cycles memory
      = some ((memory.Data cpu.PC ||| (memory.Data (incWord cpu.PC) <<< 8)) % 65536,
          { cpu with PC := incWord (incWord cpu.PC) }, subU32 Cycles 2) := by
  simp [CPU.FetchWord, read_of_lt _ _ h, read_of_lt _ _ (incWord_lt cpu.PC), WORD_MOD]

theorem PushByteToStack_eq (cpu : CPU) (Cycles Value : Nat) (memory : Mem)
    (h : cpu.SP < 65536) :
    cpu.PushByteToStack Cycles Value memory
      = some ({ cpu with SP := decWord cpu.SP }, subU32 Cycles 1,
          ⟨fun x => if x = 0x0100 ||| cpu.SP then Value % 256 else memory.Data x⟩) := by
  simp [CPU.PushByteToStack, write_of_lt _ _ _ (stackAddr_lt _ h)]

theorem PushWordToStack_eq (cpu : CPU) (Cycles Value : Nat) (memory : Mem)
    (h : cpu.SP < 65536) :
    cpu.PushWordToStack Cycles Value memory
      = some ({ cpu with SP := decWord (decWord cpu.SP) }, subU32 Cycles 2,
          ⟨fun x => if x = 0x0100 ||| decWord cpu.SP then Value % 256
            else if x = 0x0100 ||| cpu.SP then Value / 256 % 256 else memory.Data x⟩) := by
  simp [CPU.PushWordToStack, write_of_lt _ _ _ (stackAddr_lt _ h),
    write_of_lt _ _ _ (stackAddr_lt _ (decWord_lt cpu.SP)), shiftRight8_and, and_0xFF,
    Nat.shiftRight_eq_div_pow]

theorem PopByteFromStack_eq (cpu : CPU) (Cycles : Nat) (memory : Mem) :
    cpu.PopByteFromStack Cycles memory
      = some (memory.Data (0x0100 ||| incWord cpu.SP), { cpu with SP := incWord cpu.SP },
          subU32 Cycles 1) := by
  simp [CPU.PopByteFromStack, read_of_lt _ _ (stackAddr_lt _ (incWord_lt cpu.SP))]

theorem PopWordFromStack_eq (cpu : CPU) (Cycles : Nat) (memory : Mem) :
    cpu.PopWordFromStack Cycles memory
      = some ((memory.Data (0x0100 ||| incWord cpu.SP)
                ||| (memory.Data (0x0100 ||| incWord (incWord cpu.SP)) <<< 8)) % 65536,
          { cpu with SP := incWord (incWord cpu.SP) }, subU32 Cycles 2) := by
  simp [CPU.PopWordFromStack, read_of_lt _ _ (stackAddr_lt _ (incWord_lt cpu.SP)),
    read_of_lt _ _ (stackAddr_lt _ (incWord_lt (incWord cpu.SP))), WORD_MOD]

theorem incWord_decWord (w : Nat) (h : w < 65536) : incWord (decWord w) = w := by
  unfold incWord decWord WORD_MOD; omega

theorem stackAddr_decWord_ne (s : Nat) :
    (0x0100 ||| s) ≠ (0x0100 ||| decWord s) := by
  intro heq
  have h1 := stackAddr_mod_two s
  have h2 := stackAddr_mod_two (decWord s)
  rw [← heq] at h2
  unfold decWord WORD_MOD at h2
  omega

theorem ExecuteBody_JSR (cpu : CPU) (Cycles : Nat) (memory : Mem) (h : cpu.PC < 65536)
    (hsp : cpu.SP < 65536) (hop : memory.Data cpu.PC = 0x20) :
    cpu.ExecuteBody Cycles memory
      = some (Flow.loop,
          { cpu with
            PC := (memory.Data (incWord cpu.PC)
                    ||| (memory.Data (incWord (incWord cpu.PC)) <<< 8)) % 65536,
            SP := decWord (decWord cpu.SP) },
          subU32 (subU32 (subU32 (subU32 Cycles 1) 2) 2) 1,
          ⟨fun x => if x = 0x0100 ||| decWord cpu.SP then
                decWord (incWord (incWord (incWord cpu.PC))) % 256
            else if x = 0x0100 ||| cpu.SP then
                decWord (incWord (incWord (incWord cpu.PC))) / 256 % 256
            else memory.Data x⟩) := by
  simp [CPU.ExecuteBody, FetchByte_eq cpu _ _ h,
    FetchWord_eq { cpu with PC := incWord cpu.PC } _ _ (incWord_lt cpu.PC), hop,
    INS_LDA_IM, INS_LDA_ZP, INS_LDA_ZPX, INS_JSR,
    PushWordToStack_eq { cpu with PC := incWord (incWord (incWord cpu.PC)) } _ _ _ hsp]

theorem ExecuteBody_RTS (cpu : CPU) (Cycles : Nat) (memory : Mem) (h : cpu.PC < 65536)
    (hop : memory.Data cpu.PC = 0x60) :
    cpu.ExecuteBody Cycles memory
      = some (Flow.loop,
          { cpu with
            PC := ((memory.Data (0x0100 ||| incWord cpu.SP)
                    ||| (memory.Data (0x0100 ||| incWord (incWord cpu.SP)) <<< 8)) % 65536 + 1)
                  % 65536,
            SP := incWord (incWord cpu.SP) },
          subU32 (subU32 (subU32 Cycles 1) 2) 1, memory) := by
  simp [CPU.ExecuteBody, FetchByte_eq cpu _ _ h, hop,
    INS_LDA_IM, INS_LDA_ZP, INS_LDA_ZPX, INS_JSR, INS_RTS, PopWordFromStack_eq, WORD_MOD]

/-- C2: with `0x20 lo hi` at `PC = P` and `2 ≤ SP = S ≤ 0xFF`, `Execute` with
budget 6 comes back at the loop test with `PC = lo + 256 * hi`, the high byte
of `(P + 2) mod 65536` at `0x0100 | S`, its low byte at `0x0100 | (S - 1)`, and
`SP = S - 2`. -/
theorem C2_jsr_pushes_last_byte_address (cpu : CPU) (memory : Mem) (lo hi S fuel : Nat)
    (hcpu : cpu.WF) (hmem : memory.WF) (hS : cpu.SP = S) (hS2 : 2 ≤ S) (hSFF : S ≤ 0xFF)
    (hop : memory.Data cpu.PC = 0x20)
    (hlo : memory.Data ((cpu.PC + 1) % 65536) = lo)
    (hhi : memory.Data ((cpu.PC + 2) % 65536) = hi) :
    ∃ cpu1 memory1, cpu.Execute (fuel + 1) 6 memory = Run.done Halt.budget cpu1 0 memory1 ∧
      cpu1.PC = lo + 256 * hi ∧
      memory1.Data (0x0100 ||| S) = (cpu.PC + 2) % 65536 / 256 ∧
      memory1.Data (0x0100 ||| (S - 1)) = (cpu.PC + 2) % 65536 % 256 ∧
      cpu1.SP = S - 2 := by
  have hpc : cpu.PC < 65536 := hcpu.1
  have hsp : cpu.SP < 65536 := hcpu.2.1
  have hlo256 : lo < 256 := hlo ▸ hmem _
  have hhi256 : hi < 256 := hhi ▸ hmem _
  have hlo1 : memory.Data (incWord cpu.PC) = lo := by simpa [incWord, WORD_MOD] using hlo
  have hhi1 : memory.Data (incWord (incWord cpu.PC)) = hi := by
    have e : incWord (incWord cpu.PC) = (cpu.PC + 2) % 65536 := by
      unfold incWord WORD_MOD; omega
    rw [e]; exact hhi
  have hdec : decWord S = S - 1 := by unfold decWord WORD_MOD; omega
  have hne := stackAddr_decWord_ne S
  rw [hdec] at hne
  have hrun := Execute_loop fuel _ _ _ _ _ _ (by norm_num)
    (ExecuteBody_JSR cpu 6 memory hpc hsp hop)
  have hc : subU32 (subU32 (subU32 (subU32 6 1) 2) 2) 1 = 0 := by decide
  rw [hc, Execute_zero] at hrun
  refine ⟨_, _, hrun, ?_, ?_, ?_, ?_⟩
  · simp only [hlo1, hhi1, or_shiftLeft8 lo hi hlo256]
    omega
  · simp only [hS, hdec, if_neg hne, if_true]
    unfold decWord incWord WORD_MOD
    omega
  · simp only [hS, hdec, if_true]
    unfold decWord incWord WORD_MOD
    omega
  · simp only [hS]
    unfold decWord WORD_MOD
    omega

/-- Witness of C2: the first instruction of the test
`JSRCanJumpToSubroutineAndPushReturnAddressToStack`. -/
theorem C2_jsr_pushes_last_byte_address_witness :
    ∃ cpu1 memory1, resetCPU.Execute 1 6 memJSR = Run.done Halt.budget cpu1 0 memory1 ∧
      cpu1.PC = 0x42 + 256 * 0x42 ∧
      memory1.Data (0x0100 ||| 0xFF) = (resetCPU.PC + 2) % 65536 / 256 ∧
      memory1.Data (0x0100 ||| (0xFF - 1)) = (resetCPU.PC + 2) % 65536 % 256 ∧
      cpu1.SP = 0xFF - 2 :=
  C2_jsr_pushes_last_byte_address resetCPU memJSR 0x42 0x42 0xFF 0
    (by decide) (by intro a; simp only [memJSR, BYTE_MOD]; split_ifs <;> norm_num)
    (by decide) (by decide) (by decide) (by decide) (by decide) (by decide)

/-- C3: a `JSR` at `PC = P` followed by an `RTS` (the byte at the new `PC` is
`0x60` in the memory the `JSR` leaves) ends with `PC = (P + 3) mod 65536` and
`SP` at its value before the `JSR`; both passes through the loop body return. -/
theorem C3_jsr_rts_roundtrip (cpu : CPU) (memory : Mem) (Cycles : Nat)
    (hcpu : cpu.WF) (hop : memory.Data cpu.PC = 0x20) :
    (∃ cpu1 Cycles1 memory1,
      cpu.ExecuteBody Cycles memory = some (Flow.loop, cpu1, Cycles1, memory1)) ∧
    ∀ cpu1 Cycles1 memory1,
      cpu.ExecuteBody Cycles memory = some (Flow.loop, cpu1, Cycles1, memory1) →
      memory1.Data cpu1.PC = 0x60 →
      ∃ cpu2 Cycles2, cpu1.ExecuteBody Cycles1 memory1 = some (Flow.loop, cpu2, Cycles2, memory1) ∧
        cpu2.PC = (cpu.PC + 3) % 65536 ∧ cpu2.SP = cpu.SP := by
  have hpc : cpu.PC < 65536 := hcpu.1
  have hsp : cpu.SP < 65536 := hcpu.2.1
  have hjsr := ExecuteBody_JSR cpu Cycles memory hpc hsp hop
  refine ⟨⟨_, _, _, hjsr⟩, ?_⟩
  intro cpu1 Cycles1 memory1 hstep hrts
  rw [hjsr] at hstep
  simp only [Option.some.injEq, Prod.mk.injEq, true_and] at hstep
  obtain ⟨hcpu1, -, hmem1⟩ := hstep
  have hpc1 : cpu1.PC < 65536 := by
    rw [← hcpu1]; exact Nat.mod_lt _ (by norm_num)
  have hsp1 : cpu1.SP = decWord (decWord cpu.SP) := by rw [← hcpu1]
  have hrun := ExecuteBody_RTS cpu1 Cycles1 memory1 hpc1 hrts
  refine ⟨_, _, hrun, ?_, ?_⟩
  · have e1 : incWord cpu1.SP = decWord cpu.SP := by
      rw [hsp1, incWord_decWord _ (decWord_lt _)]
    have e2 : incWord (decWord cpu.SP) = cpu.SP := incWord_decWord _ hsp
    have hne := stackAddr_decWord_ne cpu.SP
    simp only [e1, e2]
    rw [← hmem1]
    simp only [if_true, if_neg hne]
    rw [or_shiftLeft8 _ _ (Nat.mod_lt _ (by norm_num))]
    unfold decWord incWord WORD_MOD
    omega
  · simp only [hsp1]
    rw [incWord_decWord _ (decWord_lt _), incWord_decWord _ hsp]

/-- Witness of C3: the test `RTSCanReturnFromSubroutine`, `JSR 0x4242` at
`0xFFFC` and `RTS` at `0x4242`, ends with `PC = 0xFFFF` and `SP = 0xFF`. -/
theorem C3_jsr_rts_roundtrip_witness :
    ∃ cpu1 Cycles1 memory1 cpu2 Cycles2,
      resetCPU.ExecuteBody 6 memRTS = some (Flow.loop, cpu1, Cycles1, memory1) ∧
      memory1.Data cpu1.PC = 0x60 ∧
      cpu1.ExecuteBody Cycles1 memory1 = some (Flow.loop, cpu2, Cycles2, memory1) ∧
      cpu2.PC = 0xFFFF ∧ cpu2.SP = 0xFF := by
  have hstep : resetCPU.ExecuteBody 6 memRTS = some (Flow.loop, _, _, _) :=
    ExecuteBody_JSR resetCPU 6 memRTS (by decide) (by decide) (by decide)
  obtain ⟨cpu2, Cycles2, h2, hPC, hSP⟩ :=
    (C3_jsr_rts_roundtrip resetCPU memRTS 6 (by decide) (by decide)).2 _ _ _ hstep (by decide)
  exact ⟨_, _, _, cpu2, Cycles2, hstep, by decide, h2, hPC, hSP⟩

theorem ExecuteBody_BRK (cpu : CPU) (Cycles : Nat) (memory : Mem) (h : cpu.PC < 65536)
    (hop : memory.Data cpu.PC = 0x00) :
    cpu.ExecuteBody Cycles memory
      = some (Flow.brk, { cpu with PC := incWord cpu.PC }, subU32 Cycles 1, memory) := by
  simp [CPU.ExecuteBody, FetchByte_eq cpu _ _ h, hop,
    INS_LDA_IM, INS_LDA_ZP, INS_LDA_ZPX, INS_JSR, INS_RTS, INS_BRK]

theorem Execute_brk (fuel : Nat) (cpu cpu1 : CPU) (Cycles Cycles1 : Nat) (memory memory1 : Mem)
    (hc : 0 < Cycles)
    (hb : cpu.ExecuteBody Cycles memory = some (Flow.brk, cpu1, Cycles1, memory1)) :
    cpu.Execute (fuel + 1) Cycles memory = Run.done Halt.brk cpu1 Cycles1 memory1 := by
  rw [CPU.Execute]; simp [hc, hb]

/-- C4: the run of the test `RTSCanReturnFromSubroutine`.  `Execute(6)` runs the
`JSR` and stops with `PC = 0x4242`, `SP = 0xFD`.  Then one pass through the
loop body with the counter at 1 runs the `RTS`, leaving `PC = 0xFFFF`,
`SP = 0xFF` and the `u32` counter wrapped to `4294967293`; so `Execute(1)` goes
round the loop again, runs the `BRK` at `0xFFFF` and returns with
`PC = 0x0000`, not with the `PC = 0xFFFF` the test expects. -/
theorem C4_short_budget_runs_past_the_instruction :
    resetCPU.Execute 1 6 memRTS = Run.done Halt.budget cpuAtSubroutine 0 memAtSubroutine ∧
    cpuAtSubroutine.ExecuteBody 1 memAtSubroutine
      = some (Flow.loop, cpuReturned, 4294967293, memAtSubroutine) ∧
    (∀ fuel, cpuAtSubroutine.Execute (fuel + 2) 1 memAtSubroutine
      = Run.done Halt.brk cpuPastBRK 4294967292 memAtSubroutine) ∧
    cpuReturned.PC = 0xFFFF ∧ cpuPastBRK.PC = 0x0000 ∧ cpuPastBRK.SP = 0xFF := by
  have hrts : cpuAtSubroutine.ExecuteBody 1 memAtSubroutine
      = some (Flow.loop, cpuReturned, 4294967293, memAtSubroutine) := rfl
  have hbrk : cpuReturned.ExecuteBody 4294967293 memAtSubroutine
      = some (Flow.brk, cpuPastBRK, 4294967292, memAtSubroutine) := rfl
  refine ⟨rfl, hrts, ?_, rfl, rfl, rfl⟩
  intro fuel
  rw [Execute_loop (fuel + 1) _ _ _ _ _ _ (by norm_num) hrts]
  exact Execute_brk fuel _ _ _ _ _ _ (by norm_num) hbrk

/-- C5: for every `SP`, memory and 16-bit `w`, `PushWordToStack(w)` followed by
`PopWordFromStack` returns `w` and leaves `SP` at its value before the push. -/
theorem C5_word_push_pop_roundtrip (cpu : CPU) (memory : Mem) (w Cycles : Nat)
    (hsp : cpu.SP < 65536) (hw : w < 65536) :
    ∃ cpu1 Cycles1 memory1 cpu2 Cycles2,
      cpu.PushWordToStack Cycles w memory = some (cpu1, Cycles1, memory1) ∧
      cpu1.PopWordFromStack Cycles1 memory1 = some (w, cpu2, Cycles2) ∧
      cpu2.SP = cpu.SP := by
  have hpush := PushWordToStack_eq cpu Cycles w memory hsp
  have e1 : incWord (decWord (decWord cpu.SP)) = decWord cpu.SP :=
    incWord_decWord _ (decWord_lt _)
  have e2 : incWord (decWord cpu.SP) = cpu.SP := incWord_decWord _ hsp
  have hne := stackAddr_decWord_ne cpu.SP
  have hval : (w % 256 ||| (w / 256 % 256) <<< 8) % 65536 = w := by
    rw [or_shiftLeft8 _ _ (Nat.mod_lt _ (by norm_num))]
    omega
  have hpop := PopWordFromStack_eq { cpu with SP := decWord (decWord cpu.SP) } (subU32 Cycles 2)
    ⟨fun x => if x = 0x0100 ||| decWord cpu.SP then w % 256
      else if x = 0x0100 ||| cpu.SP then w / 256 % 256 else memory.Data x⟩
  simp only [e1, e2, if_true, if_neg hne, hval] at hpop
  exact ⟨_, _, _, _, _, hpush, hpop, rfl⟩

/-- Witness of C5: the word push and pop of `StackOperationsWorkCorrectly`. -/
theorem C5_word_push_pop_roundtrip_witness :
    ∃ cpu1 Cycles1 memory1 cpu2 Cycles2,
      cpuAfterBytePush.PushWordToStack 9 0x1234 memAfterBytePush
        = some (cpu1, Cycles1, memory1) ∧
      cpu1.PopWordFromStack Cycles1 memory1 = some (0x1234, cpu2, Cycles2) ∧
      cpu2.SP = cpuAfterBytePush.SP :=
  C5_word_push_pop_roundtrip cpuAfterBytePush memAfterBytePush 0x1234 9
    (by decide) (by decide)

/-- C6: for every `SP`, memory and bytes `a`, `b`: after `PushByteToStack(a)` and
`PushByteToStack(b)`, the first `PopByteFromStack` returns `b`, the second
returns `a`, and `SP` ends at its value before the first push. -/
theorem C6_byte_stack_lifo (cpu : CPU) (memory : Mem) (a b Cycles : Nat)
    (hsp : cpu.SP < 65536) (ha : a < 256) (hb : b < 256) :
    ∃ cpu1 Cycles1 memory1 cpu2 Cycles2 memory2 cpu3 Cycles3 cpu4 Cycles4,
      cpu.PushByteToStack Cycles a memory = some (cpu1, Cycles1, memory1) ∧
      cpu1.PushByteToStack Cycles1 b memory1 = some (cpu2, Cycles2, memory2) ∧
      cpu2.PopByteFromStack Cycles2 memory2 = some (b, cpu3, Cycles3) ∧
      cpu3.PopByteFromStack Cycles3 memory2 = some (a, cpu4, Cycles4) ∧
      cpu4.SP = cpu.SP := by
  have e1 : incWord (decWord (decWord cpu.SP)) = decWord cpu.SP :=
    incWord_decWord _ (decWord_lt _)
  have e2 : incWord (decWord cpu.SP) = cpu.SP := incWord_decWord _ hsp
  have hne := stackAddr_decWord_ne cpu.SP
  refine ⟨{ cpu with SP := decWord cpu.SP }, subU32 Cycles 1,
    ⟨fun x => if x = 0x0100 ||| cpu.SP then a % 256 else memory.Data x⟩,
    { cpu with SP := decWord (decWord cpu.SP) }, subU32 (subU32 Cycles 1) 1,
    ⟨fun x => if x = 0x0100 ||| decWord cpu.SP then b % 256
      else if x = 0x0100 ||| cpu.SP then a % 256 else memory.Data x⟩,
    { cpu with SP := decWord cpu.SP }, subU32 (subU32 (subU32 Cycles 1) 1) 1,
    cpu, subU32 (subU32 (subU32 (subU32 Cycles 1) 1) 1) 1,
    PushByteToStack_eq cpu Cycles a memory hsp, ?_, ?_, ?_, rfl⟩
  · exact PushByteToStack_eq { cpu with SP := decWord cpu.SP } _ _ _ (decWord_lt cpu.SP)
  · rw [PopByteFromStack_eq]
    simp only [e1, if_true, Nat.mod_eq_of_lt hb]
  · rw [PopByteFromStack_eq]
    simp only [e2, if_true, if_neg hne, Nat.mod_eq_of_lt ha]

/-- Witness of C6: bytes `0x42` and `0x37` pushed from the reset stack pointer. -/
theorem C6_byte_stack_lifo_witness :
    ∃ cpu1 Cycles1 memory1 cpu2 Cycles2 memory2 cpu3 Cycles3 cpu4 Cycles4,
      resetCPU.PushByteToStack 10 0x42 memRTS = some (cpu1, Cycles1, memory1) ∧
      cpu1.PushByteToStack Cycles1 0x37 memory1 = some (cpu2, Cycles2, memory2) ∧
      cpu2.PopByteFromStack Cycles2 memory2 = some (0x37, cpu3, Cycles3) ∧
      cpu3.PopByteFromStack Cycles3 memory2 = some (0x42, cpu4, Cycles4) ∧
      cpu4.SP = resetCPU.SP :=
  C6_byte_stack_lifo resetCPU memRTS 0x42 0x37 10 (by decide) (by decide) (by decide)

theorem LDASetStatus_flags (cpu : CPU) (h : cpu.A < 256) :
    (cpu.LDASetStatus.Z = 1 ↔ cpu.A = 0) ∧ (cpu.LDASetStatus.N = 1 ↔ 128 ≤ cpu.A) := by
  have hbit := and_bit7_pos_iff cpu.A h
  constructor
  · simp [CPU.LDASetStatus]
  · simp only [CPU.LDASetStatus]
    constructor
    · intro hN
      by_contra hlt
      have hnot : ¬ 0 < cpu.A &&& 128 := fun hp => hlt (hbit.mp hp)
      simp [hnot] at hN
    · intro hge
      simp [hbit.mpr hge]

theorem ExecuteBody_LDA_ZP (cpu : CPU) (Cycles : Nat) (memory : Mem) (h : cpu.PC < 65536)
    (hop : memory.Data cpu.PC = 0xA5) :
    cpu.ExecuteBody Cycles memory
      = some (Flow.loop,
          CPU.LDASetStatus { cpu with PC := incWord (incWord cpu.PC),
                                      A := memory.Data (memory.Data (incWord cpu.PC) % 256) },
          subU32 (subU32 (subU32 Cycles 1) 1) 1, memory) := by
  simp [CPU.ExecuteBody, FetchByte_eq cpu _ _ h,
    FetchByte_eq { cpu with PC := incWord cpu.PC } _ _ (incWord_lt cpu.PC), hop,
    INS_LDA_IM, INS_LDA_ZP, ReadByte_eq]

theorem ExecuteBody_LDA_ZPX (cpu : CPU) (Cycles : Nat) (memory : Mem) (h : cpu.PC < 65536)
    (hop : memory.Data cpu.PC = 0xB5) :
    cpu.ExecuteBody Cycles memory
      = some (Flow.loop,
          CPU.LDASetStatus { cpu with PC := incWord (incWord cpu.PC),
                                      A := memory.Data ((memory.Data (incWord cpu.PC) + cpu.X)
                                                          % 256) },
          subU32 (subU32 (subU32 (subU32 Cycles 1) 1) 1) 1, memory) := by
  simp [CPU.ExecuteBody, FetchByte_eq cpu _ _ h,
    FetchByte_eq { cpu with PC := incWord cpu.PC } _ _ (incWord_lt cpu.PC), hop,
    INS_LDA_IM, INS_LDA_ZP, INS_LDA_ZPX, ReadByte_eq, BYTE_MOD]

/-- C7: with `0xB5` at `PC` and the operand byte `z` after it, and `X = x`,
`Execute` with budget 4 comes back at the loop test with
`A = mem[(z + x) mod 256]`, an address below `0x100`, with `Z = 1` iff `A = 0`
and `N = 1` iff `A ≥ 0x80`. -/
theorem C7_lda_zero_page_x_wraps (cpu : CPU) (memory : Mem) (z x fuel : Nat)
    (hcpu : cpu.WF) (hmem : memory.WF) (hx : cpu.X = x)
    (hop : memory.Data cpu.PC = 0xB5) (hz : memory.Data ((cpu.PC + 1) % 65536) = z) :
    ∃ cpu1, cpu.Execute (fuel + 1) 4 memory = Run.done Halt.budget cpu1 0 memory ∧
      cpu1.A = memory.Data ((z + x) % 256) ∧ (z + x) % 256 < 0x100 ∧
      (cpu1.Z = 1 ↔ cpu1.A = 0) ∧ (cpu1.N = 1 ↔ 128 ≤ cpu1.A) := by
  have hpc : cpu.PC < 65536 := hcpu.1
  have hz1 : memory.Data (incWord cpu.PC) = z := by simpa [incWord, WORD_MOD] using hz
  have hrun := Execute_loop fuel _ _ _ _ _ _ (by norm_num)
    (ExecuteBody_LDA_ZPX cpu 4 memory hpc hop)
  have hc : subU32 (subU32 (subU32 (subU32 4 1) 1) 1) 1 = 0 := by decide
  rw [hc, Execute_zero, hz1, hx] at hrun
  refine ⟨_, hrun, rfl, Nat.mod_lt _ (by norm_num), ?_⟩
  exact LDASetStatus_flags _ (hmem _)

/-- Witness of C7: the test `LDAZeroPageXCanLoadValueIntoARegister` (operand
`0x42`, `X = 5`, address `0x47`) and a wrapping load (operand `0xFF`, `X = 2`,
address `0x01`, where the memory holds `0x37`). -/
theorem C7_lda_zero_page_x_wraps_witness :
    (∃ cpu1, cpuX5.Execute 1 4 memLDAZeroPageX = Run.done Halt.budget cpu1 0 memLDAZeroPageX ∧
      cpu1.A = memLDAZeroPageX.Data ((0x42 + 5) % 256) ∧ (0x42 + 5) % 256 < 0x100 ∧
      (cpu1.Z = 1 ↔ cpu1.A = 0) ∧ (cpu1.N = 1 ↔ 128 ≤ cpu1.A)) ∧
    (∃ cpu1, cpuX2.Execute 1 4 memLDAZeroPageXWrap
        = Run.done Halt.budget cpu1 0 memLDAZeroPageXWrap ∧
      cpu1.A = memLDAZeroPageXWrap.Data ((0xFF + 2) % 256) ∧ (0xFF + 2) % 256 < 0x100 ∧
      (cpu1.Z = 1 ↔ cpu1.A = 0) ∧ (cpu1.N = 1 ↔ 128 ≤ cpu1.A)) :=
  ⟨C7_lda_zero_page_x_wraps cpuX5 memLDAZeroPageX 0x42 5 0 (by decide)
      (by intro a; simp only [memLDAZeroPageX, BYTE_MOD]; split_ifs <;> norm_num)
      (by decide) (by decide) (by decide),
   C7_lda_zero_page_x_wraps cpuX2 memLDAZeroPageXWrap 0xFF 2 0 (by decide)
      (by intro a; simp only [memLDAZeroPageXWrap, BYTE_MOD]; split_ifs <;> norm_num)
      (by decide) (by decide) (by decide)⟩

/-- C8: with `0xA5` at `PC = P` and the operand byte `z` after it, `Execute` with
budget 3 comes back at the loop test with `A = mem[z]`, `z ≤ 0xFF`, `Z = 1` iff
`A = 0`, `N = 1` iff `A ≥ 0x80`, and `PC = (P + 2) mod 65536`. -/
theorem C8_lda_zero_page (cpu : CPU) (memory : Mem) (z fuel : Nat)
    (hcpu : cpu.WF) (hmem : memory.WF)
    (hop : memory.Data cpu.PC = 0xA5) (hz : memory.Data ((cpu.PC + 1) % 65536) = z) :
    ∃ cpu1, cpu.Execute (fuel + 1) 3 memory = Run.done Halt.budget cpu1 0 memory ∧
      cpu1.A = memory.Data z ∧ z ≤ 0xFF ∧
      (cpu1.Z = 1 ↔ cpu1.A = 0) ∧ (cpu1.N = 1 ↔ 128 ≤ cpu1.A) ∧
      cpu1.PC = (cpu.PC + 2) % 65536 := by
  have hpc : cpu.PC < 65536 := hcpu.1
  have hz1 : memory.Data (incWord cpu.PC) = z := by simpa [incWord, WORD_MOD] using hz
  have hz256 : z < 256 := hz ▸ hmem _
  have hrun := Execute_loop fuel _ _ _ _ _ _ (by norm_num)
    (ExecuteBody_LDA_ZP cpu 3 memory hpc hop)
  have hc : subU32 (subU32 (subU32 3 1) 1) 1 = 0 := by decide
  rw [hc, Execute_zero, hz1, Nat.mod_eq_of_lt hz256] at hrun
  refine ⟨_, hrun, rfl, by omega, ?_⟩
  refine ⟨(LDASetStatus_flags _ (hmem _)).1, (LDASetStatus_flags _ (hmem _)).2, ?_⟩
  simp only [CPU.LDASetStatus, incWord, WORD_MOD]
  omega

/-- Witness of C8: the test `LDAZeroPageCanLoadValueIntoARegister`. -/
theorem C8_lda_zero_page_witness :
    ∃ cpu1, resetCPU.Execute 1 3 memLDAZeroPage = Run.done Halt.budget cpu1 0 memLDAZeroPage ∧
      cpu1.A = memLDAZeroPage.Data 0x42 ∧ 0x42 ≤ 0xFF ∧
      (cpu1.Z = 1 ↔ cpu1.A = 0) ∧ (cpu1.N = 1 ↔ 128 ≤ cpu1.A) ∧
      cpu1.PC = (resetCPU.PC + 2) % 65536 :=
  C8_lda_zero_page resetCPU memLDAZeroPage 0x42 0 (by decide)
    (by intro a; simp only [memLDAZeroPage, BYTE_MOD]; split_ifs <;> norm_num)
    (by decide) (by decide)

theorem InitialiseLoop_Data (m : Mem) (n a : Nat) :
    (m.InitialiseLoop n).Data a = if a < n then 0 else m.Data a := by
  induction n with
  | zero => simp [Mem.InitialiseLoop]
  | succ n ih =>
    simp only [Mem.InitialiseLoop]
    by_cases h : a = n
    · simp [h]
    · rw [if_neg h, ih]
      by_cases h1 : a < n
      · simp [h1, Nat.lt_succ_of_lt h1]
      · have h2 : ¬ a < n + 1 := by omega
        simp [h1, h2]

/-- C9: after `Reset`, from every CPU state and memory, `PC = 0xFFFC`,
`SP = 0xFF`, `A = X = Y = 0`, the seven flags are 0 and each of the 65536
memory bytes is 0. -/
theorem C9_reset_entry_state (cpu : CPU) (memory : Mem) :
    (cpu.Reset memory).1.PC = 0xFFFC ∧ (cpu.Reset memory).1.SP = 0xFF ∧
    (cpu.Reset memory).1.A = 0 ∧ (cpu.Reset memory).1.X = 0 ∧ (cpu.Reset memory).1.Y = 0 ∧
    (cpu.Reset memory).1.C = 0 ∧ (cpu.Reset memory).1.Z = 0 ∧ (cpu.Reset memory).1.I = 0 ∧
    (cpu.Reset memory).1.D = 0 ∧ (cpu.Reset memory).1.B = 0 ∧ (cpu.Reset memory).1.V = 0 ∧
    (cpu.Reset memory).1.N = 0 ∧
    ∀ a, a < 65536 → (cpu.Reset memory).2.Data a = 0 := by
  refine ⟨rfl, rfl, rfl, rfl, rfl, rfl, rfl, rfl, rfl, rfl, rfl, rfl, ?_⟩
  intro a ha
  have hlt : a < MAX_MEM := by unfold MAX_MEM; omega
  simp only [CPU.Reset, Mem.Initialise, InitialiseLoop_Data, if_pos hlt]

/-- Witness of C9: `Reset` on the memory of `RTSCanReturnFromSubroutine` clears
the `RTS` byte stored at `0x4242`. -/
theorem C9_reset_entry_state_witness :
    (resetCPU.Reset memRTS).1.PC = 0xFFFC ∧ (resetCPU.Reset memRTS).1.SP = 0xFF ∧
    memRTS.Data 0x4242 = 0x60 ∧ (resetCPU.Reset memRTS).2.Data 0x4242 = 0 :=
  match C9_reset_entry_state resetCPU memRTS with
  | ⟨hPC, hSP, _, _, _, _, _, _, _, _, _, _, hmem⟩ =>
    ⟨hPC, hSP, by decide, hmem 0x4242 (by decide)⟩

/-- C10: `Execute` with budget 0 returns at once with the CPU and the memory it
was given, for every amount of fuel; run directly after `Reset` it returns the
reset state `PC = 0xFFFC`, `SP = 0xFF`, `A = X = Y = 0`, all flags 0. -/
theorem C10_execute_zero_cycles (fuel : Nat) (cpu : CPU) (memory : Mem) :
    cpu.Execute fuel 0 memory = Run.done Halt.budget cpu 0 memory ∧
    (cpu.Reset memory).1.Execute fuel 0 (cpu.Reset memory).2
      = Run.done Halt.budget
          { PC := 0xFFFC, SP := 0xFF, A := 0, X := 0, Y := 0,
            C := 0, Z := 0, I := 0, D := 0, B := 0, V := 0, N := 0 }
          0 (cpu.Reset memory).2 := by
  constructor
  · unfold CPU.Execute; simp
  · unfold CPU.Execute; simp [CPU.Reset]

theorem ExecuteBody_default (cpu : CPU) (Cycles : Nat) (memory : Mem) (h : cpu.PC < 65536)
    (h1 : memory.Data cpu.PC ≠ 0xA9) (h2 : memory.Data cpu.PC ≠ 0xA5)
    (h3 : memory.Data cpu.PC ≠ 0xB5) (h4 : memory.Data cpu.PC ≠ 0x20)
    (h5 : memory.Data cpu.PC ≠ 0x60) (h6 : memory.Data cpu.PC ≠ 0x00) :
    cpu.ExecuteBody Cycles memory
      = some (Flow.unhandled, { cpu with PC := incWord cpu.PC }, subU32 Cycles 1, memory) := by
  simp [CPU.ExecuteBody, FetchByte_eq cpu _ _ h, h1, h2, h3, h4, h5, h6,
    INS_LDA_IM, INS_LDA_ZP, INS_LDA_ZPX, INS_JSR, INS_RTS, INS_BRK]

theorem Execute_unhandled (fuel : Nat) (cpu cpu1 : CPU) (Cycles Cycles1 : Nat)
    (memory memory1 : Mem) (hc : 0 < Cycles)
    (hb : cpu.ExecuteBody Cycles memory = some (Flow.unhandled, cpu1, Cycles1, memory1)) :
    cpu.Execute (fuel + 1) Cycles memory = Run.done Halt.unhandled cpu1 Cycles1 memory1 := by
  rw [CPU.Execute]; simp [hc, hb]

/-- C11: when the byte at `PC = P` is none of `0xA9`, `0xA5`, `0xB5`, `0x20`,
`0x60`, `Execute(n)` with `n ≥ 1` returns from its first pass through the loop
(by the `INS_BRK` case for `0x00`, by the `default` case otherwise) with
`PC = (P + 1) mod 65536`, the counter at `n - 1`, and `SP`, `A`, `X`, `Y`, the
seven flags and the memory as they were. -/
theorem C11_halt_or_unknown_opcode_stops (cpu : CPU) (memory : Mem) (n fuel : Nat)
    (hcpu : cpu.WF) (hn : 1 ≤ n)
    (h1 : memory.Data cpu.PC ≠ 0xA9) (h2 : memory.Data cpu.PC ≠ 0xA5)
    (h3 : memory.Data cpu.PC ≠ 0xB5) (h4 : memory.Data cpu.PC ≠ 0x20)
    (h5 : memory.Data cpu.PC ≠ 0x60) :
    ∃ why cpu1, cpu.Execute (fuel + 1) n memory = Run.done why cpu1 (subU32 n 1) memory ∧
      (why = if memory.Data cpu.PC = 0x00 then Halt.brk else Halt.unhandled) ∧
      cpu1.PC = (cpu.PC + 1) % 65536 ∧ cpu1.SP = cpu.SP ∧
      cpu1.A = cpu.A ∧ cpu1.X = cpu.X ∧ cpu1.Y = cpu.Y ∧
      cpu1.C = cpu.C ∧ cpu1.Z = cpu.Z ∧ cpu1.I = cpu.I ∧ cpu1.D = cpu.D ∧
      cpu1.B = cpu.B ∧ cpu1.V = cpu.V ∧ cpu1.N = cpu.N := by
  have hpc : cpu.PC < 65536 := hcpu.1
  have hc : 0 < n := hn
  by_cases h6 : memory.Data cpu.PC = 0x00
  · refine ⟨Halt.brk, { cpu with PC := incWord cpu.PC },
      Execute_brk fuel _ _ _ _ _ _ hc (ExecuteBody_BRK cpu n memory hpc h6), ?_,
      rfl, rfl, rfl, rfl, rfl, rfl, rfl, rfl, rfl, rfl, rfl, rfl⟩
    rw [if_pos h6]
  · refine ⟨Halt.unhandled, { cpu with PC := incWord cpu.PC },
      Execute_unhandled fuel _ _ _ _ _ _ hc
        (ExecuteBody_default cpu n memory hpc h1 h2 h3 h4 h5 h6), ?_,
      rfl, rfl, rfl, rfl, rfl, rfl, rfl, rfl, rfl, rfl, rfl, rfl⟩
    rw [if_neg h6]

/-- Witness of C11: the byte `0xEA` at the reset vector, with budget 3. -/
theorem C11_halt_or_unknown_opcode_stops_witness :
    ∃ why cpu1, resetCPU.Execute 1 3 memUnknownOpcode
        = Run.done why cpu1 (subU32 3 1) memUnknownOpcode ∧
      (why = if memUnknownOpcode.Data resetCPU.PC = 0x00 then Halt.brk else Halt.unhandled) ∧
      cpu1.PC = (resetCPU.PC + 1) % 65536 ∧ cpu1.SP = resetCPU.SP ∧
      cpu1.A = resetCPU.A ∧ cpu1.X = resetCPU.X ∧ cpu1.Y = resetCPU.Y ∧
      cpu1.C = resetCPU.C ∧ cpu1.Z = resetCPU.Z ∧ cpu1.I = resetCPU.I ∧
      cpu1.D = resetCPU.D ∧ cpu1.B = resetCPU.B ∧ cpu1.V = resetCPU.V ∧
      cpu1.N = resetCPU.N :=
  C11_halt_or_unknown_opcode_stops resetCPU memUnknownOpcode 3 0 (by decide) (by decide)
    (by decide) (by decide) (by decide) (by decide) (by decide)

theorem Execute_memAllLDA_odd (fuel : Nat) :
    ∀ (cpu : CPU) (Cycles : Nat), cpu.PC < 65536 → Cycles % 2 = 1 → Cycles < 4294967296 →
      cpu.Execute fuel Cycles memAllLDA = Run.outOfFuel := by
  induction fuel with
  | zero =>
    intro cpu Cycles _ hodd _
    have hc : 0 < Cycles := by omega
    rw [CPU.Execute]; simp [hc]
  | succ fuel ih =>
    intro cpu Cycles hpc hodd hlt
    have hc : 0 < Cycles := by omega
    rw [Execute_loop fuel _ _ _ _ _ _ hc (ExecuteBody_LDA_IM cpu Cycles memAllLDA hpc rfl)]
    apply ih
    · exact incWord_lt (incWord cpu.PC)
    · unfold subU32 U32_MOD; omega
    · unfold subU32 U32_MOD; omega

/-- C12: on the memory filled with `0xA9`, `Execute(1)` from the reset state
never leaves its loop: every `LDA #` takes the `u32` counter down by 2, from 1
to `4294967295` and on through the odd numbers, so the test `Cycles > 0` never
fails; whatever the number of loop passes allowed, the run is still going and
no result is returned. -/
theorem C12_execute_can_run_forever :
    (∀ fuel, resetCPU.Execute fuel 1 memAllLDA = Run.outOfFuel) ∧
    ¬ ∃ fuel why cpu1 Cycles1 memory1,
        resetCPU.Execute fuel 1 memAllLDA = Run.done why cpu1 Cycles1 memory1 := by
  have key : ∀ fuel, resetCPU.Execute fuel 1 memAllLDA = Run.outOfFuel := fun fuel =>
    Execute_memAllLDA_odd fuel resetCPU 1 (by decide) (by decide) (by decide)
  refine ⟨key, ?_⟩
  rintro ⟨fuel, why, cpu1, Cycles1, memory1, h⟩
  rw [key fuel] at h
  exact Run.noConfusion h

/-! ## What one pass through the loop body can change -/

theorem ExecuteBody_effect (cpu : CPU) (Cycles : Nat) (memory : Mem)
    (h : cpu.PC < 65536) (hsp : cpu.SP < 65536) :
    ∃ fl cpu1 Cycles1 memory1,
      cpu.ExecuteBody Cycles memory = some (fl, cpu1, Cycles1, memory1) ∧
      cpu1.PC < 65536 ∧ cpu1.SP < 65536 ∧
      cpu1.X = cpu.X ∧ cpu1.Y = cpu.Y ∧ cpu1.C = cpu.C ∧ cpu1.I = cpu.I ∧
      cpu1.D = cpu.D ∧ cpu1.B = cpu.B ∧ cpu1.V = cpu.V ∧
      (memory.Data cpu.PC ≠ 0xA9 → memory.Data cpu.PC ≠ 0xA5 → memory.Data cpu.PC ≠ 0xB5 →
        cpu1.A = cpu.A ∧ cpu1.Z = cpu.Z ∧ cpu1.N = cpu.N) ∧
      (memory.Data cpu.PC ≠ 0x20 → memory.Data cpu.PC ≠ 0x60 → cpu1.SP = cpu.SP) ∧
      (memory.Data cpu.PC ≠ 0x20 → memory1 = memory) ∧
      (∀ a, a ≠ (0x0100 ||| cpu.SP) → a ≠ (0x0100 ||| decWord cpu.SP) →
        memory1.Data a = memory.Data a) := by
  by_cases h1 : memory.Data cpu.PC = 0xA9
  · refine ⟨_, _, _, _, ExecuteBody_LDA_IM cpu Cycles memory h h1, ?_⟩
    simp [CPU.LDASetStatus, incWord_lt, hsp, h1]
  by_cases h2 : memory.Data cpu.PC = 0xA5
  · refine ⟨_, _, _, _, ExecuteBody_LDA_ZP cpu Cycles memory h h2, ?_⟩
    simp [CPU.LDASetStatus, incWord_lt, hsp, h2]
  by_cases h3 : memory.Data cpu.PC = 0xB5
  · refine ⟨_, _, _, _, ExecuteBody_LDA_ZPX cpu Cycles memory h h3, ?_⟩
    simp [CPU.LDASetStatus, incWord_lt, hsp, h3]
  by_cases h4 : memory.Data cpu.PC = 0x20
  · refine ⟨_, _, _, _, ExecuteBody_JSR cpu Cycles memory h hsp h4, ?_⟩
    refine ⟨Nat.mod_lt _ (by norm_num), decWord_lt _, rfl, rfl, rfl, rfl, rfl, rfl, rfl,
      fun _ _ _ => ⟨rfl, rfl, rfl⟩, fun hne => absurd h4 hne, fun hne => absurd h4 hne, ?_⟩
    intro a ha1 ha2
    simp only [if_neg ha1, if_neg ha2]
  by_cases h5 : memory.Data cpu.PC = 0x60
  · refine ⟨_, _, _, _, ExecuteBody_RTS cpu Cycles memory h h5, ?_⟩
    refine ⟨Nat.mod_lt _ (by norm_num), incWord_lt _, rfl, rfl, rfl, rfl, rfl, rfl, rfl,
      fun _ _ _ => ⟨rfl, rfl, rfl⟩, fun _ hne => absurd h5 hne, fun _ => rfl, fun _ _ _ => rfl⟩
  by_cases h6 : memory.Data cpu.PC = 0x00
  · refine ⟨_, _, _, _, ExecuteBody_BRK cpu Cycles memory h h6, ?_⟩
    exact ⟨incWord_lt _, hsp, rfl, rfl, rfl, rfl, rfl, rfl, rfl,
      fun _ _ _ => ⟨rfl, rfl, rfl⟩, fun _ _ => rfl, fun _ => rfl, fun _ _ _ => rfl⟩
  · refine ⟨_, _, _, _, ExecuteBody_default cpu Cycles memory h h1 h2 h3 h4 h5 h6, ?_⟩
    exact ⟨incWord_lt _, hsp, rfl, rfl, rfl, rfl, rfl, rfl, rfl,
      fun _ _ _ => ⟨rfl, rfl, rfl⟩, fun _ _ => rfl, fun _ => rfl, fun _ _ _ => rfl⟩

theorem Execute_ne_assertFailed (fuel : Nat) :
    ∀ (cpu : CPU) (Cycles : Nat) (memory : Mem), cpu.PC < 65536 → cpu.SP < 65536 →
      cpu.Execute fuel Cycles memory ≠ Run.assertFailed := by
  induction fuel with
  | zero =>
    intro cpu Cycles memory _ _
    rw [CPU.Execute]
    by_cases hc : Cycles > 0 <;> simp [hc]
  | succ fuel ih =>
    intro cpu Cycles memory hpc hsp
    obtain ⟨fl, cpu1, Cycles1, memory1, hb, hpc1, hsp1, -⟩ :=
      ExecuteBody_effect cpu Cycles memory hpc hsp
    rw [CPU.Execute]
    by_cases hc : Cycles > 0
    · cases fl with
      | loop => simpa [hc, hb] using ih cpu1 Cycles1 memory1 hpc1 hsp1
      | brk => simp [hc, hb]
      | unhandled => simp [hc, hb]
    · simp [hc]

/-- C13: on every CPU state whose `PC` and `SP` are `Word`s, with every memory,
counter and argument, `FetchByte`, `FetchWord`, `ReadByte`, `PushByteToStack`,
`PushWordToStack`, `PopByteFromStack`, `PopWordFromStack` and one pass through
the loop body of `Execute` all come back with a result (no assertion of
`Mem::operator[]` fails), and no run of `Execute` ends in a failed assertion. -/
theorem C13_no_bounds_check_fails (cpu : CPU) (memory : Mem) (Cycles Address Value : Nat)
    (hcpu : cpu.WF) :
    (cpu.FetchByte Cycles memory).isSome ∧ (cpu.FetchWord Cycles memory).isSome ∧
    (cpu.ReadByte Cycles Address memory).isSome ∧
    (cpu.PushByteToStack Cycles Value memory).isSome ∧
    (cpu.PushWordToStack Cycles Value memory).isSome ∧
    (cpu.PopByteFromStack Cycles memory).isSome ∧
    (cpu.PopWordFromStack Cycles memory).isSome ∧
    (cpu.ExecuteBody Cycles memory).isSome ∧
    ∀ fuel, cpu.Execute fuel Cycles memory ≠ Run.assertFailed := by
  have hpc : cpu.PC < 65536 := hcpu.1
  have hsp : cpu.SP < 65536 := hcpu.2.1
  obtain ⟨fl, cpu1, Cycles1, memory1, hb, -⟩ := ExecuteBody_effect cpu Cycles memory hpc hsp
  refine ⟨?_, ?_, ?_, ?_, ?_, ?_, ?_, ?_, ?_⟩
  · rw [FetchByte_eq cpu _ _ hpc]; rfl
  · rw [FetchWord_eq cpu _ _ hpc]; rfl
  · rw [ReadByte_eq]; rfl
  · rw [PushByteToStack_eq cpu _ _ _ hsp]; rfl
  · rw [PushWordToStack_eq cpu _ _ _ hsp]; rfl
  · rw [PopByteFromStack_eq]; rfl
  · rw [PopWordFromStack_eq]; rfl
  · rw [hb]; rfl
  · exact fun fuel => Execute_ne_assertFailed fuel cpu Cycles memory hpc hsp

/-- Witness of C13: the reset state on the memory of the `JSR` test. -/
theorem C13_no_bounds_check_fails_witness :
    (resetCPU.FetchByte 8 memJSR).isSome ∧ (resetCPU.FetchWord 8 memJSR).isSome ∧
    (resetCPU.ReadByte 8 0x42 memJSR).isSome ∧
    (resetCPU.PushByteToStack 8 0x42 memJSR).isSome ∧
    (resetCPU.PushWordToStack 8 0x42 memJSR).isSome ∧
    (resetCPU.PopByteFromStack 8 memJSR).isSome ∧
    (resetCPU.PopWordFromStack 8 memJSR).isSome ∧
    (resetCPU.ExecuteBody 8 memJSR).isSome ∧
    ∀ fuel, resetCPU.Execute fuel 8 memJSR ≠ Run.assertFailed :=
  C13_no_bounds_check_fails resetCPU memJSR 8 0x42 0x42 (by decide)

set_option maxRecDepth 100000 in
/-- C14: `SP` is a `Word` and is not kept within 8 bits.  Directly after `Reset`
(`SP = 0xFF`) a byte pop leaves `SP = 0x0100`, not `0x00`, and an `RTS` at the
reset vector leaves `SP = 0x0101`; 256 byte pushes after `Reset` bring `SP`
to `0xFFFF`, not back to `0xFF`, and the 257th writes its byte at address
`0xFFFF`, outside the stack page `0x0100..0x01FF`. -/
theorem C14_stack_pointer_is_not_kept_in_a_byte :
    resetCPU.SP = 0xFF ∧
    resetCPU.PopByteFromStack 1 memZero = some (0, { resetCPU with SP := 0x0100 }, 0) ∧
    resetCPU.Execute 1 4 memRTSFirst
      = Run.done Halt.budget { resetCPU with PC := 0x0001, SP := 0x0101 } 0 memRTSFirst ∧
    (pushBytes 255 resetCPU 300 memZero).map (fun r => r.1.SP) = some 0x0000 ∧
    (pushBytes 256 resetCPU 300 memZero).map (fun r => r.1.SP) = some 0xFFFF ∧
    (pushBytes 256 resetCPU 300 memZero).map (fun r => r.2.2.Data 0xFFFF) = some 0x00 ∧
    (pushBytes 257 resetCPU 300 memZero).map (fun r => r.2.2.Data 0xFFFF) = some 0x42 := by
  refine ⟨rfl, rfl, rfl, ?_, ?_, ?_, ?_⟩ <;> decide

/-- C15: for a 16-bit `v` and `a + 1 < 65536`, `WriteWord(v, a)` succeeds and
leaves `v mod 256` at `a`, `v div 256` at `a + 1` and every other byte as it
was; `ReadWord(a)` on the result returns `v`; each call takes 2 off the `u32`
cycle counter (`c - 2` when `c ≥ 2`, modulo `2^32` in general). -/
theorem C15_read_word_inverts_write_word (m : Mem) (v a Cycles : Nat)
    (hv : v < 65536) (ha : a + 1 < 65536) (hc : Cycles < 4294967296) :
    ∃ m1 Cycles1 Cycles2,
      m.WriteWord v a Cycles = some (m1, Cycles1) ∧
      m1.Data a = v % 256 ∧ m1.Data (a + 1) = v / 256 ∧
      (∀ x, x ≠ a → x ≠ a + 1 → m1.Data x = m.Data x) ∧
      m1.ReadWord a Cycles1 = some (v, Cycles2) ∧
      (Cycles1 + 2) % 4294967296 = Cycles ∧ (Cycles2 + 2) % 4294967296 = Cycles1 ∧
      (2 ≤ Cycles → Cycles1 = Cycles - 2) ∧ (2 ≤ Cycles1 → Cycles2 = Cycles1 - 2) := by
  have ha1 : a < MAX_MEM - 1 := by unfold MAX_MEM; omega
  have hne : a ≠ a + 1 := by omega
  have hhi : v >>> 8 = v / 256 := by rw [Nat.shiftRight_eq_div_pow]
  have hval : (v % 256 ||| (v / 256 % 256) <<< 8) % 65536 = v := by
    rw [or_shiftLeft8 _ _ (Nat.mod_lt _ (by norm_num))]
    omega
  refine ⟨⟨fun x => if x = a + 1 then v / 256 % 256 else if x = a then v % 256 % 256
      else m.Data x⟩, subU32 Cycles 2, subU32 (subU32 Cycles 2) 2, ?_, ?_, ?_, ?_, ?_, ?_, ?_, ?_, ?_⟩
  · simp only [Mem.WriteWord, if_pos ha1, and_0xFF, hhi, BYTE_MOD]
  · simp only [if_neg hne, if_true, Nat.mod_mod]
  · simp only [if_true]
    omega
  · intro x hx hx1
    simp only [if_neg hx, if_neg hx1]
  · simp only [Mem.ReadWord, if_pos ha1, if_neg hne, if_true, Nat.mod_mod, WORD_MOD, hval]
  · unfold subU32 U32_MOD; omega
  · unfold subU32 U32_MOD; omega
  · intro h2; unfold subU32 U32_MOD; omega
  · intro h2; unfold subU32 U32_MOD at h2 ⊢; omega

/-- Witness of C15: `WriteWord( 0x1234, 0x0200, cycles )` with `cycles = 10` on
the zeroed memory. -/
theorem C15_read_word_inverts_write_word_witness :
    ∃ m1 Cycles1 Cycles2,
      memZero.WriteWord 0x1234 0x0200 10 = some (m1, Cycles1) ∧
      m1.Data 0x0200 = 0x1234 % 256 ∧ m1.Data (0x0200 + 1) = 0x1234 / 256 ∧
      (∀ x, x ≠ 0x0200 → x ≠ 0x0200 + 1 → m1.Data x = memZero.Data x) ∧
      m1.ReadWord 0x0200 Cycles1 = some (0x1234, Cycles2) ∧
      (Cycles1 + 2) % 4294967296 = 10 ∧ (Cycles2 + 2) % 4294967296 = Cycles1 ∧
      (2 ≤ 10 → Cycles1 = 10 - 2) ∧ (2 ≤ Cycles1 → Cycles2 = Cycles1 - 2) :=
  C15_read_word_inverts_write_word memZero 0x1234 0x0200 10 (by decide) (by decide) (by decide)

/-- C16: one pass through the loop body on `0xA9`, `0xA5`, `0xB5` or `0x20` takes
2, 3, 4 or 6 off the `u32` cycle counter (`c - cost` when `c ≥ cost`, modulo
`2^32` in general); and `Execute` called with exactly that cost makes this one
pass and returns at the loop test with the counter at 0, in the state the pass
left. -/
theorem C16_instruction_cycle_cost (cpu : CPU) (memory : Mem) (Cycles cost : Nat)
    (hcpu : cpu.WF) (hc : Cycles < 4294967296)
    (hop : (memory.Data cpu.PC = 0xA9 ∧ cost = 2) ∨ (memory.Data cpu.PC = 0xA5 ∧ cost = 3) ∨
           (memory.Data cpu.PC = 0xB5 ∧ cost = 4) ∨ (memory.Data cpu.PC = 0x20 ∧ cost = 6)) :
    (∃ cpu1 Cycles1 memory1,
      cpu.ExecuteBody Cycles memory = some (Flow.loop, cpu1, Cycles1, memory1) ∧
      (Cycles1 + cost) % 4294967296 = Cycles ∧ (cost ≤ Cycles → Cycles1 = Cycles - cost)) ∧
    ∃ cpu2 memory2,
      cpu.ExecuteBody cost memory = some (Flow.loop, cpu2, 0, memory2) ∧
      ∀ fuel, cpu.Execute (fuel + 1) cost memory = Run.done Halt.budget cpu2 0 memory2 := by
  have hpc : cpu.PC < 65536 := hcpu.1
  have hsp : cpu.SP < 65536 := hcpu.2.1
  rcases hop with ⟨h, rfl⟩ | ⟨h, rfl⟩ | ⟨h, rfl⟩ | ⟨h, rfl⟩
  · have hb := ExecuteBody_LDA_IM cpu 2 memory hpc h
    rw [show subU32 (subU32 2 1) 1 = 0 from by decide] at hb
    refine ⟨⟨_, _, _, ExecuteBody_LDA_IM cpu Cycles memory hpc h, ?_, ?_⟩, _, _, hb, ?_⟩
    · unfold subU32 U32_MOD; omega
    · intro hle; unfold subU32 U32_MOD; omega
    · intro fuel
      rw [Execute_loop fuel _ _ _ _ _ _ (by norm_num) hb, Execute_zero]
  · have hb := ExecuteBody_LDA_ZP cpu 3 memory hpc h
    rw [show subU32 (subU32 (subU32 3 1) 1) 1 = 0 from by decide] at hb
    refine ⟨⟨_, _, _, ExecuteBody_LDA_ZP cpu Cycles memory hpc h, ?_, ?_⟩, _, _, hb, ?_⟩
    · unfold subU32 U32_MOD; omega
    · intro hle; unfold subU32 U32_MOD; omega
    · intro fuel
      rw [Execute_loop fuel _ _ _ _ _ _ (by norm_num) hb, Execute_zero]
  · have hb := ExecuteBody_LDA_ZPX cpu 4 memory hpc h
    rw [show subU32 (subU32 (subU32 (subU32 4 1) 1) 1) 1 = 0 from by decide] at hb
    refine ⟨⟨_, _, _, ExecuteBody_LDA_ZPX cpu Cycles memory hpc h, ?_, ?_⟩, _, _, hb, ?_⟩
    · unfold subU32 U32_MOD; omega
    · intro hle; unfold subU32 U32_MOD; omega
    · intro fuel
      rw [Execute_loop fuel _ _ _ _ _ _ (by norm_num) hb, Execute_zero]
  · have hb := ExecuteBody_JSR cpu 6 memory hpc hsp h
    rw [show subU32 (subU32 (subU32 (subU32 6 1) 2) 2) 1 = 0 from by decide] at hb
    refine ⟨⟨_, _, _, ExecuteBody_JSR cpu Cycles memory hpc hsp h, ?_, ?_⟩, _, _, hb, ?_⟩
    · unfold subU32 U32_MOD; omega
    · intro hle; unfold subU32 U32_MOD; omega
    · intro fuel
      rw [Execute_loop fuel _ _ _ _ _ _ (by norm_num) hb, Execute_zero]

/-- Witness of C16: the `JSR` of the test suite, whose `Execute( 6, mem )` comes
back with the counter at 0. -/
theorem C16_instruction_cycle_cost_witness :
    (∃ cpu1 Cycles1 memory1,
      resetCPU.ExecuteBody 8 memJSR = some (Flow.loop, cpu1, Cycles1, memory1) ∧
      (Cycles1 + 6) % 4294967296 = 8 ∧ (6 ≤ 8 → Cycles1 = 8 - 6)) ∧
    ∃ cpu2 memory2,
      resetCPU.ExecuteBody 6 memJSR = some (Flow.loop, cpu2, 0, memory2) ∧
      ∀ fuel, resetCPU.Execute (fuel + 1) 6 memJSR = Run.done Halt.budget cpu2 0 memory2 :=
  C16_instruction_cycle_cost resetCPU memJSR 8 6 (by decide) (by decide)
    (Or.inr (Or.inr (Or.inr ⟨by decide, rfl⟩)))

/-- C17: an `RTS` takes 4 off the cycle counter, not 6: one for the opcode fetch,
two in `PopWordFromStack` and one more `Cycles--`.  On the `RTS` of the test
suite a counter of 6 comes back as 2, `Execute(4)` runs exactly that `RTS` and
stops with the counter at 0, and on every state a counter `c ≥ 4` comes back
as `c - 4`. -/
theorem C17_rts_takes_four_cycles :
    cpuAtSubroutine.ExecuteBody 6 memAtSubroutine
      = some (Flow.loop, cpuReturned, 2, memAtSubroutine) ∧
    (∀ fuel, cpuAtSubroutine.Execute (fuel + 1) 4 memAtSubroutine
      = Run.done Halt.budget cpuReturned 0 memAtSubroutine) ∧
    ∀ (cpu : CPU) (memory : Mem) (Cycles : Nat), cpu.PC < 65536 → memory.Data cpu.PC = 0x60 →
      4 ≤ Cycles → Cycles < 4294967296 →
      ∃ cpu1, cpu.ExecuteBody Cycles memory = some (Flow.loop, cpu1, Cycles - 4, memory) := by
  have hb4 : cpuAtSubroutine.ExecuteBody 4 memAtSubroutine
      = some (Flow.loop, cpuReturned, 0, memAtSubroutine) := rfl
  refine ⟨rfl, ?_, ?_⟩
  · intro fuel
    rw [Execute_loop fuel _ _ _ _ _ _ (by norm_num) hb4, Execute_zero]
  · intro cpu memory Cycles hpc hop h4 hlt
    have hb := ExecuteBody_RTS cpu Cycles memory hpc hop
    have hcost : subU32 (subU32 (subU32 Cycles 1) 2) 1 = Cycles - 4 := by
      unfold subU32 U32_MOD; omega
    rw [hcost] at hb
    exact ⟨_, hb⟩

theorem subU32_one_one (Cycles : Nat) : subU32 (subU32 Cycles 1) 1 = subU32 Cycles 2 := by
  unfold subU32 U32_MOD; omega

theorem pushWord_spec_eq (cpu : CPU) (Cycles Value : Nat) (memory : Mem)
    (h : cpu.SP < 65536) :
    cpu.pushWord_spec Cycles Value memory
      = some ({ cpu with SP := decWord (decWord cpu.SP) }, subU32 Cycles 2,
          ⟨fun x => if x = 0x0100 ||| decWord cpu.SP then Value % 256
            else if x = 0x0100 ||| cpu.SP then Value / 256 % 256 else memory.Data x⟩) := by
  simp [CPU.pushWord_spec, PushByteToStack_eq cpu _ _ _ h,
    PushByteToStack_eq { cpu with SP := decWord cpu.SP } _ _ _ (decWord_lt cpu.SP),
    subU32_one_one]

/-- C18: for every `SP`, memory, counter and 16-bit `w`, `PushWordToStack(w)`
returns exactly the CPU, counter and memory that `PushByteToStack(w div 256)`
followed by `PushByteToStack(w mod 256)` returns: the high byte is at
`0x0100 | SP`, the low byte at `0x0100 | (SP - 1)`, two off `SP`; when
`1 ≤ SP ≤ 0xFF` the high byte's address is the one just above the low byte's. -/
theorem C18_push_word_is_two_byte_pushes (cpu : CPU) (memory : Mem) (w Cycles : Nat)
    (hsp : cpu.SP < 65536) (hw : w < 65536) :
    ∃ cpu1 Cycles1 memory1,
      cpu.PushWordToStack Cycles w memory = some (cpu1, Cycles1, memory1) ∧
      cpu.pushWord_spec Cycles w memory = some (cpu1, Cycles1, memory1) ∧
      memory1.Data (0x0100 ||| cpu.SP) = w / 256 ∧
      memory1.Data (0x0100 ||| decWord cpu.SP) = w % 256 ∧
      cpu1.SP = decWord (decWord cpu.SP) ∧
      (1 ≤ cpu.SP → cpu.SP ≤ 0xFF →
        (0x0100 ||| cpu.SP) = (0x0100 ||| decWord cpu.SP) + 1) := by
  have hne := stackAddr_decWord_ne cpu.SP
  refine ⟨_, _, _, PushWordToStack_eq cpu Cycles w memory hsp,
    pushWord_spec_eq cpu Cycles w memory hsp, ?_, ?_, rfl, ?_⟩
  · simp only [if_neg hne, if_true]
    omega
  · simp only [if_true]
  · intro h1 hFF
    have hd : decWord cpu.SP = cpu.SP - 1 := by unfold decWord WORD_MOD; omega
    rw [hd, stackAddr_of_lt _ (by omega), stackAddr_of_lt _ (by omega)]
    omega

/-- Witness of C18: the word push of `StackOperationsWorkCorrectly`, `0x1234`
from `SP = 0xFE`. -/
theorem C18_push_word_is_two_byte_pushes_witness :
    ∃ cpu1 Cycles1 memory1,
      cpuAfterBytePush.PushWordToStack 9 0x1234 memAfterBytePush
        = some (cpu1, Cycles1, memory1) ∧
      cpuAfterBytePush.pushWord_spec 9 0x1234 memAfterBytePush
        = some (cpu1, Cycles1, memory1) ∧
      memory1.Data (0x0100 ||| cpuAfterBytePush.SP) = 0x1234 / 256 ∧
      memory1.Data (0x0100 ||| decWord cpuAfterBytePush.SP) = 0x1234 % 256 ∧
      cpu1.SP = decWord (decWord cpuAfterBytePush.SP) ∧
      (1 ≤ cpuAfterBytePush.SP → cpuAfterBytePush.SP ≤ 0xFF →
        (0x0100 ||| cpuAfterBytePush.SP) = (0x0100 ||| decWord cpuAfterBytePush.SP) + 1) :=
  C18_push_word_is_two_byte_pushes cpuAfterBytePush memAfterBytePush 0x1234 9
    (by decide) (by decide)

theorem stackAddr_bit8 (s : Nat) : (0x0100 ||| s) / 256 % 2 = 1 := by
  have h1 : (0x0100 ||| s).testBit 8 = true := by
    rw [Nat.testBit_or]
    have h2 : (0x0100 : Nat).testBit 8 = true := by decide
    simp [h2]
  rw [Nat.testBit_to_div_mod] at h1
  simpa using h1

theorem Execute_done_invariant (Inv : CPU → Mem → Prop)
    (hstep : ∀ (cpu : CPU) (Cycles : Nat) (memory : Mem) (fl : Flow) (cpu1 : CPU)
      (Cycles1 : Nat) (memory1 : Mem), Inv cpu memory →
      cpu.ExecuteBody Cycles memory = some (fl, cpu1, Cycles1, memory1) → Inv cpu1 memory1)
    (fuel : Nat) :
    ∀ (cpu : CPU) (Cycles : Nat) (memory : Mem) (why : Halt) (cpu2 : CPU) (Cycles2 : Nat)
      (memory2 : Mem), Inv cpu memory →
      cpu.Execute fuel Cycles memory = Run.done why cpu2 Cycles2 memory2 → Inv cpu2 memory2 := by
  induction fuel with
  | zero =>
    intro cpu Cycles memory why cpu2 Cycles2 memory2 hinv hrun
    rw [CPU.Execute] at hrun
    by_cases hc : Cycles > 0
    · simp [hc] at hrun
    · simp only [hc, if_false, Run.done.injEq] at hrun
      obtain ⟨-, h1, -, h2⟩ := hrun
      rw [← h1, ← h2]; exact hinv
  | succ fuel ih =>
    intro cpu Cycles memory why cpu2 Cycles2 memory2 hinv hrun
    rw [CPU.Execute] at hrun
    by_cases hc : Cycles > 0
    · simp only [hc, if_true] at hrun
      cases hb : cpu.ExecuteBody Cycles memory with
      | none => simp [hb] at hrun
      | some r =>
        obtain ⟨fl, cpu1, Cycles1, memory1⟩ := r
        have hinv1 := hstep cpu Cycles memory fl cpu1 Cycles1 memory1 hinv hb
        cases fl with
        | loop =>
          simp only [hb] at hrun
          exact ih cpu1 Cycles1 memory1 why cpu2 Cycles2 memory2 hinv1 hrun
        | brk =>
          simp only [hb, Run.done.injEq] at hrun
          obtain ⟨-, h1, -, h2⟩ := hrun
          rw [← h1, ← h2]; exact hinv1
        | unhandled =>
          simp only [hb, Run.done.injEq] at hrun
          obtain ⟨-, h1, -, h2⟩ := hrun
          rw [← h1, ← h2]; exact hinv1
    · simp only [hc, if_false, Run.done.injEq] at hrun
      obtain ⟨-, h1, -, h2⟩ := hrun
      rw [← h1, ← h2]; exact hinv

/-- C18, counterexample: the high byte does not land at the higher address on
every CPU state.  With `SP = 0x00`, `PushWordToStack(0x1234)` is still the two
byte pushes, but it stores the high byte `0x12` at `0x0100` and the low byte
`0x34` at `0x0100 | 0xFFFF = 0xFFFF`, above it, and leaves `SP = 0xFFFE`. -/
theorem C18_high_byte_at_lower_address_counterexample :
    cpuStackBottom.WF ∧ cpuStackBottom.SP = 0x00 ∧
    cpuStackBottom.PushWordToStack 10 0x1234 memZero
      = cpuStackBottom.pushWord_spec 10 0x1234 memZero ∧
    (cpuStackBottom.PushWordToStack 10 0x1234 memZero).map
        (fun r => (r.1.SP, r.2.2.Data 0x0100, r.2.2.Data 0xFFFF))
      = some (0xFFFE, 0x12, 0x34) ∧
    (0x0100 ||| cpuStackBottom.SP) = 0x0100 ∧
    (0x0100 ||| decWord cpuStackBottom.SP) = 0xFFFF ∧
    ¬ ∀ (cpu : CPU) (memory : Mem) (w Cycles : Nat), cpu.WF → w < 65536 →
        ∃ cpu1 Cycles1 memory1,
          cpu.PushWordToStack Cycles w memory = some (cpu1, Cycles1, memory1) ∧
          cpu.pushWord_spec Cycles w memory = some (cpu1, Cycles1, memory1) ∧
          memory1.Data (0x0100 ||| cpu.SP) = w / 256 ∧
          memory1.Data (0x0100 ||| decWord cpu.SP) = w % 256 ∧
          (0x0100 ||| decWord cpu.SP) < (0x0100 ||| cpu.SP) := by
  have hsp : cpuStackBottom.SP < 65536 := by decide
  refine ⟨by decide, rfl, ?_, by decide, by decide, by decide, ?_⟩
  · rw [PushWordToStack_eq cpuStackBottom 10 0x1234 memZero hsp,
      pushWord_spec_eq cpuStackBottom 10 0x1234 memZero hsp]
  · intro hall
    obtain ⟨_, _, _, -, -, -, -, hlt⟩ :=
      hall cpuStackBottom memZero 0x1234 10 (by decide) (by decide)
    exact absurd hlt (by decide)

theorem ExecutePasses_invariant (Inv : CPU → Mem → Prop)
    (hstep : ∀ (cpu : CPU) (Cycles : Nat) (memory : Mem) (fl : Flow) (cpu1 : CPU)
      (Cycles1 : Nat) (memory1 : Mem), Inv cpu memory →
      cpu.ExecuteBody Cycles memory = some (fl, cpu1, Cycles1, memory1) → Inv cpu1 memory1)
    (n : Nat) :
    ∀ (cpu : CPU) (Cycles : Nat) (memory : Mem) (cpu2 : CPU) (Cycles2 : Nat) (memory2 : Mem),
      Inv cpu memory →
      cpu.ExecutePasses n Cycles memory = some (cpu2, Cycles2, memory2) → Inv cpu2 memory2 := by
  induction n with
  | zero =>
    intro cpu Cycles memory cpu2 Cycles2 memory2 hinv hrun
    simp only [CPU.ExecutePasses, Option.some.injEq, Prod.mk.injEq] at hrun
    obtain ⟨h1, -, h2⟩ := hrun
    rw [← h1, ← h2]; exact hinv
  | succ n ih =>
    intro cpu Cycles memory cpu2 Cycles2 memory2 hinv hrun
    rw [CPU.ExecutePasses] at hrun
    by_cases hc : Cycles > 0
    · simp only [hc, if_true] at hrun
      cases hb : cpu.ExecuteBody Cycles memory with
      | none => simp [hb] at hrun
      | some r =>
        obtain ⟨fl, cpu1, Cycles1, memory1⟩ := r
        have hinv1 := hstep cpu Cycles memory fl cpu1 Cycles1 memory1 hinv hb
        cases fl with
        | loop =>
          simp only [hb] at hrun
          exact ih cpu1 Cycles1 memory1 cpu2 Cycles2 memory2 hinv1 hrun
        | brk => simp [hb] at hrun
        | unhandled => simp [hb] at hrun
    · simp [hc] at hrun

/-- C19: one pass through the loop body returns, and leaves the memory as it was
unless the opcode is `0x20`, when the only bytes that can differ are those at
`0x0100 | SP` and `0x0100 | (SP - 1)` (`SP` before the instruction, `SP - 1` as
a `Word`); so every byte whose address has bit 8 clear holds what it held
before the call, both whenever `Execute` returns and after any number of
passes of a run that is still going. -/
theorem C19_memory_written_only_by_jsr_on_stack (cpu : CPU) (memory : Mem) (Cycles : Nat)
    (hcpu : cpu.WF) :
    (∃ fl cpu1 Cycles1 memory1,
      cpu.ExecuteBody Cycles memory = some (fl, cpu1, Cycles1, memory1) ∧
      (memory.Data cpu.PC ≠ 0x20 → memory1 = memory) ∧
      (∀ a, a ≠ (0x0100 ||| cpu.SP) → a ≠ (0x0100 ||| decWord cpu.SP) →
        memory1.Data a = memory.Data a)) ∧
    (∀ fuel why cpu2 Cycles2 memory2,
      cpu.Execute fuel Cycles memory = Run.done why cpu2 Cycles2 memory2 →
      ∀ a, a / 256 % 2 = 0 → memory2.Data a = memory.Data a) ∧
    ∀ n cpu2 Cycles2 memory2,
      cpu.ExecutePasses n Cycles memory = some (cpu2, Cycles2, memory2) →
      ∀ a, a / 256 % 2 = 0 → memory2.Data a = memory.Data a := by
  have hpc : cpu.PC < 65536 := hcpu.1
  have hsp : cpu.SP < 65536 := hcpu.2.1
  have hstep : ∀ (c : CPU) (Cy : Nat) (m : Mem) (fl : Flow) (c1 : CPU) (Cy1 : Nat) (m1 : Mem),
      (c.PC < 65536 ∧ c.SP < 65536 ∧ ∀ a, a / 256 % 2 = 0 → m.Data a = memory.Data a) →
      c.ExecuteBody Cy m = some (fl, c1, Cy1, m1) →
      (c1.PC < 65536 ∧ c1.SP < 65536 ∧ ∀ a, a / 256 % 2 = 0 → m1.Data a = memory.Data a) := by
    intro c Cy m fl c1 Cy1 m1 hinv hb
    obtain ⟨hp, hs, hm⟩ := hinv
    obtain ⟨fl', c1', Cy1', m1', hb', hp1, hs1, -, -, -, -, -, -, -, -, -, -, hframe⟩ :=
      ExecuteBody_effect c Cy m hp hs
    rw [hb] at hb'
    simp only [Option.some.injEq, Prod.mk.injEq] at hb'
    obtain ⟨-, rfl, -, rfl⟩ := hb'
    refine ⟨hp1, hs1, ?_⟩
    intro a ha
    have h1 : a ≠ (0x0100 ||| c.SP) := by
      intro heq
      have := stackAddr_bit8 c.SP
      rw [← heq] at this
      omega
    have h2 : a ≠ (0x0100 ||| decWord c.SP) := by
      intro heq
      have := stackAddr_bit8 (decWord c.SP)
      rw [← heq] at this
      omega
    rw [hframe a h1 h2]
    exact hm a ha
  refine ⟨?_, ?_, ?_⟩
  · obtain ⟨fl, cpu1, Cycles1, memory1, hb, -, -, -, -, -, -, -, -, -, -, -, hm, hframe⟩ :=
      ExecuteBody_effect cpu Cycles memory hpc hsp
    exact ⟨fl, cpu1, Cycles1, memory1, hb, hm, hframe⟩
  · intro fuel why cpu2 Cycles2 memory2 hrun
    exact (Execute_done_invariant
      (fun c m => c.PC < 65536 ∧ c.SP < 65536 ∧
        ∀ a, a / 256 % 2 = 0 → m.Data a = memory.Data a)
      hstep fuel cpu Cycles memory why cpu2 Cycles2 memory2
      ⟨hpc, hsp, fun _ _ => rfl⟩ hrun).2.2
  · intro n cpu2 Cycles2 memory2 hrun
    exact (ExecutePasses_invariant
      (fun c m => c.PC < 65536 ∧ c.SP < 65536 ∧
        ∀ a, a / 256 % 2 = 0 → m.Data a = memory.Data a)
      hstep n cpu Cycles memory cpu2 Cycles2 memory2
      ⟨hpc, hsp, fun _ _ => rfl⟩ hrun).2.2

/-- Witness of C19: the reset state on the memory of the `JSR` test. -/
theorem C19_memory_written_only_by_jsr_on_stack_witness :
    (∃ fl cpu1 Cycles1 memory1,
      resetCPU.ExecuteBody 8 memJSR = some (fl, cpu1, Cycles1, memory1) ∧
      (memJSR.Data resetCPU.PC ≠ 0x20 → memory1 = memJSR) ∧
      (∀ a, a ≠ (0x0100 ||| resetCPU.SP) → a ≠ (0x0100 ||| decWord resetCPU.SP) →
        memory1.Data a = memJSR.Data a)) ∧
    (∀ fuel why cpu2 Cycles2 memory2,
      resetCPU.Execute fuel 8 memJSR = Run.done why cpu2 Cycles2 memory2 →
      ∀ a, a / 256 % 2 = 0 → memory2.Data a = memJSR.Data a) ∧
    ∀ n cpu2 Cycles2 memory2,
      resetCPU.ExecutePasses n 8 memJSR = some (cpu2, Cycles2, memory2) →
      ∀ a, a / 256 % 2 = 0 → memory2.Data a = memJSR.Data a :=
  C19_memory_written_only_by_jsr_on_stack resetCPU memJSR 8 (by decide)

/-- C20: one pass through the loop body returns with `X`, `Y` and the flags `C`,
`I`, `D`, `B`, `V` as they were, with `A`, `Z`, `N` as they were unless the
opcode is `0xA9`, `0xA5` or `0xB5`, and with `SP` as it was unless the opcode
is `0x20` or `0x60`; so `X`, `Y`, `C`, `I`, `D`, `B`, `V` hold what they held
before the call, both whenever `Execute` returns and after any number of
passes of a run that is still going. -/
theorem C20_registers_and_flags_frame (cpu : CPU) (memory : Mem) (Cycles : Nat)
    (hcpu : cpu.WF) :
    (∃ fl cpu1 Cycles1 memory1,
      cpu.ExecuteBody Cycles memory = some (fl, cpu1, Cycles1, memory1) ∧
      cpu1.X = cpu.X ∧ cpu1.Y = cpu.Y ∧ cpu1.C = cpu.C ∧ cpu1.I = cpu.I ∧
      cpu1.D = cpu.D ∧ cpu1.B = cpu.B ∧ cpu1.V = cpu.V ∧
      (memory.Data cpu.PC ≠ 0xA9 → memory.Data cpu.PC ≠ 0xA5 → memory.Data cpu.PC ≠ 0xB5 →
        cpu1.A = cpu.A ∧ cpu1.Z = cpu.Z ∧ cpu1.N = cpu.N) ∧
      (memory.Data cpu.PC ≠ 0x20 → memory.Data cpu.PC ≠ 0x60 → cpu1.SP = cpu.SP)) ∧
    (∀ fuel why cpu2 Cycles2 memory2,
      cpu.Execute fuel Cycles memory = Run.done why cpu2 Cycles2 memory2 →
      cpu2.X = cpu.X ∧ cpu2.Y = cpu.Y ∧ cpu2.C = cpu.C ∧ cpu2.I = cpu.I ∧
      cpu2.D = cpu.D ∧ cpu2.B = cpu.B ∧ cpu2.V = cpu.V) ∧
    ∀ n cpu2 Cycles2 memory2,
      cpu.ExecutePasses n Cycles memory = some (cpu2, Cycles2, memory2) →
      cpu2.X = cpu.X ∧ cpu2.Y = cpu.Y ∧ cpu2.C = cpu.C ∧ cpu2.I = cpu.I ∧
      cpu2.D = cpu.D ∧ cpu2.B = cpu.B ∧ cpu2.V = cpu.V := by
  have hpc : cpu.PC < 65536 := hcpu.1
  have hsp : cpu.SP < 65536 := hcpu.2.1
  have hstep : ∀ (c : CPU) (Cy : Nat) (m : Mem) (fl : Flow) (c1 : CPU) (Cy1 : Nat) (m1 : Mem),
      (c.PC < 65536 ∧ c.SP < 65536 ∧ c.X = cpu.X ∧ c.Y = cpu.Y ∧ c.C = cpu.C ∧ c.I = cpu.I ∧
        c.D = cpu.D ∧ c.B = cpu.B ∧ c.V = cpu.V) →
      c.ExecuteBody Cy m = some (fl, c1, Cy1, m1) →
      (c1.PC < 65536 ∧ c1.SP < 65536 ∧ c1.X = cpu.X ∧ c1.Y = cpu.Y ∧ c1.C = cpu.C ∧
        c1.I = cpu.I ∧ c1.D = cpu.D ∧ c1.B = cpu.B ∧ c1.V = cpu.V) := by
    intro c Cy m fl c1 Cy1 m1 hinv hb
    obtain ⟨hp, hs, iX, iY, iC, iI, iD, iB, iV⟩ := hinv
    obtain ⟨fl', c1', Cy1', m1', hb', hp1, hs1, hX, hY, hC, hI, hD, hB, hV, -⟩ :=
      ExecuteBody_effect c Cy m hp hs
    rw [hb] at hb'
    simp only [Option.some.injEq, Prod.mk.injEq] at hb'
    obtain ⟨-, rfl, -, rfl⟩ := hb'
    exact ⟨hp1, hs1, hX.trans iX, hY.trans iY, hC.trans iC, hI.trans iI,
      hD.trans iD, hB.trans iB, hV.trans iV⟩
  refine ⟨?_, ?_, ?_⟩
  · obtain ⟨fl, cpu1, Cycles1, memory1, hb, -, -, hX, hY, hC, hI, hD, hB, hV, hAZN, hSP, -, -⟩ :=
      ExecuteBody_effect cpu Cycles memory hpc hsp
    exact ⟨fl, cpu1, Cycles1, memory1, hb, hX, hY, hC, hI, hD, hB, hV, hAZN, hSP⟩
  · intro fuel why cpu2 Cycles2 memory2 hrun
    exact (Execute_done_invariant
      (fun c _ => c.PC < 65536 ∧ c.SP < 65536 ∧ c.X = cpu.X ∧ c.Y = cpu.Y ∧ c.C = cpu.C ∧
        c.I = cpu.I ∧ c.D = cpu.D ∧ c.B = cpu.B ∧ c.V = cpu.V)
      hstep fuel cpu Cycles memory why cpu2 Cycles2 memory2
      ⟨hpc, hsp, rfl, rfl, rfl, rfl, rfl, rfl, rfl⟩ hrun).2.2
  · intro n cpu2 Cycles2 memory2 hrun
    exact (ExecutePasses_invariant
      (fun c _ => c.PC < 65536 ∧ c.SP < 65536 ∧ c.X = cpu.X ∧ c.Y = cpu.Y ∧ c.C = cpu.C ∧
        c.I = cpu.I ∧ c.D = cpu.D ∧ c.B = cpu.B ∧ c.V = cpu.V)
      hstep n cpu Cycles memory cpu2 Cycles2 memory2
      ⟨hpc, hsp, rfl, rfl, rfl, rfl, rfl, rfl, rfl⟩ hrun).2.2

/-- Witness of C20: the CPU with `X = 5` on the memory of the indexed-load
test. -/
theorem C20_registers_and_flags_frame_witness :
    (∃ fl cpu1 Cycles1 memory1,
      cpuX5.ExecuteBody 4 memLDAZeroPageX = some (fl, cpu1, Cycles1, memory1) ∧
      cpu1.X = cpuX5.X ∧ cpu1.Y = cpuX5.Y ∧ cpu1.C = cpuX5.C ∧ cpu1.I = cpuX5.I ∧
      cpu1.D = cpuX5.D ∧ cpu1.B = cpuX5.B ∧ cpu1.V = cpuX5.V ∧
      (memLDAZeroPageX.Data cpuX5.PC ≠ 0xA9 → memLDAZeroPageX.Data cpuX5.PC ≠ 0xA5 →
        memLDAZeroPageX.Data cpuX5.PC ≠ 0xB5 →
        cpu1.A = cpuX5.A ∧ cpu1.Z = cpuX5.Z ∧ cpu1.N = cpuX5.N) ∧
      (memLDAZeroPageX.Data cpuX5.PC ≠ 0x20 → memLDAZeroPageX.Data cpuX5.PC ≠ 0x60 →
        cpu1.SP = cpuX5.SP)) ∧
    (∀ fuel why cpu2 Cycles2 memory2,
      cpuX5.Execute fuel 4 memLDAZeroPageX = Run.done why cpu2 Cycles2 memory2 →
      cpu2.X = cpuX5.X ∧ cpu2.Y = cpuX5.Y ∧ cpu2.C = cpuX5.C ∧ cpu2.I = cpuX5.I ∧
      cpu2.D = cpuX5.D ∧ cpu2.B = cpuX5.B ∧ cpu2.V = cpuX5.V) ∧
    ∀ n cpu2 Cycles2 memory2,
      cpuX5.ExecutePasses n 4 memLDAZeroPageX = some (cpu2, Cycles2, memory2) →
      cpu2.X = cpuX5.X ∧ cpu2.Y = cpuX5.Y ∧ cpu2.C = cpuX5.C ∧ cpu2.I = cpuX5.I ∧
      cpu2.D = cpuX5.D ∧ cpu2.B = cpuX5.B ∧ cpu2.V = cpuX5.V :=
  C20_registers_and_flags_frame cpuX5 memLDAZeroPageX 4 (by decide)

end M6502
